import Mathlib

/-!
Verification of the series-splitting / stacking / coloring pipeline of a
charting library (shallow embedding of `stacked_series_utils.ts` and
`series.ts`).

Modelling conventions:
- JavaScript numbers are modelled by `JsNum`: an exact rational together
  with the special values `NaN`, `Infinity` and `-Infinity`.
- A JavaScript value that may be `null` or `undefined` is modelled with
  `Option`; all uses in the embedded code are loose (`x != null`,
  truthiness), so the two are safely conflated.
- `string | number` values (x values, accessors, split-accessor values)
  are modelled by `JsVal`; the numeric side carries an exact rational.
- JavaScript `Map` objects are modelled as insertion-ordered association
  lists (`JsMap`); `set` replaces in place, `get` finds the first match.
- JavaScript `Set` objects are modelled as insertion-ordered duplicate-free
  lists.
- `Array.prototype.sort` is modelled as a stable insertion sort driven by
  the user comparator (`cmp a b ≤ 0` keeps `a` before `b`); for the
  inconsistent comparators that the source passes on mixed key types the
  ECMAScript result is implementation-defined, and insertion sort is one
  faithful deterministic refinement of it.
-/

/-- A JavaScript number: an exact rational, or one of the IEEE special
values `NaN`, `Infinity`, `-Infinity`. -/
inductive JsNum where
  | num (q : ℚ)
  | nan
  | inf
  | ninf
deriving DecidableEq, Repr

/-- `ToNumber` coercion of a nullable number: `null`/`undefined` become `0`. -/
def jsToNumber : Option JsNum → JsNum
  | none => .num 0
  | some v => v

/-- JavaScript `+` on numbers (with the IEEE special values). -/
def jsAdd : JsNum → JsNum → JsNum
  | .num a, .num b => .num (a + b)
  | .nan, _ => .nan
  | _, .nan => .nan
  | .inf, .ninf => .nan
  | .ninf, .inf => .nan
  | .inf, _ => .inf
  | _, .inf => .inf
  | .ninf, _ => .ninf
  | _, .ninf => .ninf

/-- JavaScript `/` on numbers (with the IEEE special values; the sign of a
zero divisor is ignored since the embedding has no `-0`). -/
def jsDiv : JsNum → JsNum → JsNum
  | .nan, _ => .nan
  | _, .nan => .nan
  | .num a, .num b =>
      if b = 0 then (if a = 0 then .nan else if a > 0 then .inf else .ninf)
      else .num (a / b)
  | .inf, .num b => if b ≥ 0 then .inf else .ninf
  | .ninf, .num b => if b ≥ 0 then .ninf else .inf
  | .num _, .inf => .num 0
  | .num _, .ninf => .num 0
  | .inf, .inf => .nan
  | .inf, .ninf => .nan
  | .ninf, .inf => .nan
  | .ninf, .ninf => .nan

/-- JavaScript `+` applied to two possibly-null numbers (both operands go
through `ToNumber`, so `null` counts as `0`). -/
def jsAddN (a b : Option JsNum) : JsNum := jsAdd (jsToNumber a) (jsToNumber b)

/-- Truthiness of a possibly-null number: `null`, `undefined`, `0` and
`NaN` are falsy. -/
def jsNumFalsy : Option JsNum → Bool
  | none => true
  | some (.num q) => q = 0
  | some .nan => true
  | some _ => false

/-- JavaScript `a || b` on possibly-null numbers. -/
def jsOrN (a b : Option JsNum) : Option JsNum := if jsNumFalsy a then b else a

/-- A JavaScript `string | number` value (map keys, x values, accessors,
split-accessor values). The numeric side is an exact rational. -/
inductive JsVal where
  | str (s : String)
  | num (q : ℚ)
deriving DecidableEq, Repr

def JsVal.isStr : JsVal → Bool
  | .str _ => true
  | .num _ => false

/-- JavaScript string conversion of a `string | number` value. Faithful for
strings and integral numbers (the only values the theorems below use);
non-integral rationals are printed in Lean's `num/den` notation. -/
def jsValToString : JsVal → String
  | .str s => s
  | .num q => if q.den = 1 then toString q.num else toString q

/-- Model of JavaScript `ToNumber` on strings, restricted to optional-sign
integer literals: the empty string is `0`, `[+-]?digits` parses as the
integer, and anything else is `NaN` (`none`). -/
def strToNumJs (s : String) : Option ℚ :=
  if s.data = [] then some 0
  else
    let core : Int × List Char :=
      match s.data with
      | '-' :: rest => (-1, rest)
      | '+' :: rest => (1, rest)
      | l => (1, l)
    if core.2 ≠ [] ∧ core.2.all Char.isDigit then
      some ((core.1 *
        (core.2.foldl (fun acc c => acc * 10 + ((c.toNat - Char.toNat '0' : ℕ) : ℤ)) 0) : ℤ) : ℚ)
    else none

/-- JavaScript `>` on `string | number` values: string/string compares
lexicographically, anything involving a number coerces the other side with
`ToNumber`, and a `NaN` operand makes the comparison false. -/
def jsGTVal (a b : JsVal) : Bool :=
  match a, b with
  | .str s, .str t => decide (t < s)
  | .num m, .num n => decide (n < m)
  | .str s, .num n =>
      match strToNumJs s with
      | some m => decide (n < m)
      | none => false
  | .num m, .str t =>
      match strToNumJs t with
      | some n => decide (n < m)
      | none => false

/-- A JavaScript `Map`, as an insertion-ordered association list. -/
abbrev JsMap (K V : Type) := List (K × V)

/-- `Map.prototype.get`: the value stored at the first matching key. -/
def jsMapGet {K V : Type} [DecidableEq K] : JsMap K V → K → Option V
  | [], _ => none
  | (k2, v) :: rest, k => if k2 = k then some v else jsMapGet rest k

/-- `Map.prototype.set`: replace in place if the key is present, otherwise
append (preserving insertion order). -/
def jsMapSet {K V : Type} [DecidableEq K] : JsMap K V → K → V → JsMap K V
  | [], k, v => [(k, v)]
  | (k2, v2) :: rest, k, v =>
      if k2 = k then (k, v) :: rest else (k2, v2) :: jsMapSet rest k v

/-- `Set.prototype.add`: append unless already present. -/
def jsSetAdd {K : Type} [DecidableEq K] (s : List K) (v : K) : List K :=
  if v ∈ s then s else s ++ [v]

/-- `Array.prototype.sort` with a user comparator, modelled as a stable
insertion sort: an element is inserted before the first element it compares
`≤ 0` against. -/
def jsSort {α : Type} (cmp : α → α → Int) (l : List α) : List α :=
  l.insertionSort (fun a b => cmp a b ≤ 0)

/-- An opaque user-supplied record field value: string, number or boolean
(other shapes are never observed by the embedded accessors). -/
inductive DVal where
  | str (s : String)
  | num (q : ℚ)
  | boolv (b : Bool)
deriving DecidableEq, Repr

/-- A raw user record, as a string-keyed association of field values. -/
abbrev JsObj := List (String × DVal)

/-- JavaScript `Number(value)` on a record field value. -/
def jsNumberOfDVal : DVal → JsNum
  | .str s =>
      match strToNumJs s with
      | some q => .num q
      | none => .nan
  | .num q => .num q
  | .boolv b => .num (if b then 1 else 0)

/-- Modelled from the spec: the x-scale type enumeration consumed from the
(out-of-scope) scales module — continuous (`linear`, `log`, `sqrt`),
`time`, and `ordinal`. -/
inductive ScaleType where
  | linear
  | ordinal
  | time
  | log
  | sqrt
deriving DecidableEq, Repr

/-- Modelled from the spec: `isDefined` helper from `state/utils` — a value
is defined when it is neither `null` nor `undefined`. -/
def isDefined {α : Type} (v : Option α) : Bool := v.isSome

/- ---------------- series.ts data model ---------------- -/

/-- `FilledValues`: the synthetic values recorded on a gap-filled datum. -/
structure FilledValues where
  x : Option JsVal := none
  y1 : Option JsNum := none
  y0 : Option JsNum := none
deriving DecidableEq, Repr

/-- `RawDataSeriesDatum`: one cleaned point before stacking. -/
structure RawDataSeriesDatum where
  x : JsVal
  y1 : Option JsNum
  y0 : Option JsNum := none
  mark : Option DVal := none
  datum : Option JsObj := none
deriving DecidableEq, Repr

/-- `DataSeriesDatum`: one formatted point after stacking. -/
structure DataSeriesDatum where
  x : JsVal
  y1 : Option JsNum
  y0 : Option JsNum
  initialY1 : Option JsNum
  initialY0 : Option JsNum
  mark : Option DVal
  datum : Option JsObj
  filled : Option FilledValues := none
deriving DecidableEq, Repr

/-- `XYChartSeriesIdentifier` (including the `key` of the base
`SeriesIdentifier`). -/
structure XYChartSeriesIdentifier where
  specId : String
  key : String
  yAccessor : JsVal
  splitAccessors : JsMap JsVal JsVal
  seriesKeys : List JsVal
deriving DecidableEq, Repr

/-- `RawDataSeries`: identifier plus raw data points. -/
structure RawDataSeries extends XYChartSeriesIdentifier where
  data : List RawDataSeriesDatum
deriving DecidableEq, Repr

/-- `DataSeries`: identifier plus formatted data points. -/
structure DataSeries extends XYChartSeriesIdentifier where
  data : List DataSeriesDatum
deriving DecidableEq, Repr

/- ---------------- stacked_series_utils.ts ---------------- -/

/-- `StackedValues` for one x value. The TypeScript type declares
`values: number[]` and `total: number`, but at runtime a `null` `y1`
stored in a stack array flows through unchanged, so the embedding keeps
the nullable type. -/
structure StackedValues where
  values : List (Option JsNum)
  percent : List JsNum
  total : Option JsNum
deriving DecidableEq, Repr

/-- `datumXSortPredicate`: comparator used to sort formatted data by x —
`0` (keep order) for ordinal scales or string x values, numeric difference
otherwise. -/
def datumXSortPredicate (xScaleType : ScaleType) (a b : DataSeriesDatum) : Int :=
  if xScaleType = .ordinal ∨ a.x.isStr ∨ b.x.isStr then 0
  else
    match a.x, b.x with
    | .num na, .num nb => if na < nb then -1 else if nb < na then 1 else 0
    | _, _ => 0

/-- Inner loop of `getYValueStackMap` over one series' data: store `y1` at
the series index of the per-x stack array, and drop the x from the missing
set. -/
def stackDatumLoop (n index : ℕ) (xValues : List JsVal) :
    List RawDataSeriesDatum →
    JsMap JsVal (List (Option JsNum)) × List JsVal →
    JsMap JsVal (List (Option JsNum)) × List JsVal
  | [], st => st
  | datum :: rest, (stackMap, missing) =>
      let stack := (jsMapGet stackMap datum.x).getD (List.replicate n (some (.num 0)))
      let stack := stack.set index datum.y1
      let stackMap := jsMapSet stackMap datum.x stack
      let missing :=
        if datum.x ∈ xValues then missing.filter (fun k => decide (k ≠ datum.x)) else missing
      stackDatumLoop n index xValues rest (stackMap, missing)

/-- Second loop of `getYValueStackMap` for one series: record a `0`
contribution at every still-missing x value. -/
def stackMissingLoop (n index : ℕ) :
    List JsVal → JsMap JsVal (List (Option JsNum)) → JsMap JsVal (List (Option JsNum))
  | [], stackMap => stackMap
  | x :: rest, stackMap =>
      let stack := (jsMapGet stackMap x).getD (List.replicate n (some (.num 0)))
      let stack := stack.set index (some (.num 0))
      stackMissingLoop n index rest (jsMapSet stackMap x stack)

/-- Outer loop of `getYValueStackMap` over the series (with their index).
The missing set persists (and only shrinks) across series, as in the
source. -/
def stackSeriesLoop (n : ℕ) (xValues : List JsVal) :
    ℕ → List RawDataSeries →
    JsMap JsVal (List (Option JsNum)) × List JsVal →
    JsMap JsVal (List (Option JsNum)) × List JsVal
  | _, [], st => st
  | index, ds :: rest, st =>
      let st2 := stackDatumLoop n index xValues ds.data st
      let sm := stackMissingLoop n index st2.2 st2.1
      stackSeriesLoop n xValues (index + 1) rest (sm, st2.2)

/-- `getYValueStackMap`: map each x value to the array of the series' `y1`
values at that x (by series index), `0`-filling x values a series lacks. -/
def getYValueStackMap (dataseries : List RawDataSeries) (xValues : List JsVal) :
    JsMap JsVal (List (Option JsNum)) :=
  (stackSeriesLoop dataseries.length xValues 0 dataseries ([], xValues)).1

/-- The `reduce` of `computeYStackedMapValues` over one stack array,
carried out with the element index: the first element seeds
`[0, v0]` (absolute) or `[v0, v0]` (extent) with total `v0`; each later
element appends `values[index] + v` (the running cumulative) and adds into
the total. Additions are JavaScript `+` on nullable numbers. -/
def stackReduceGo (scaleToExtent : Bool) :
    ℕ → List (Option JsNum) × Option JsNum → List (Option JsNum) →
    List (Option JsNum) × Option JsNum
  | _, acc, [] => acc
  | index, (values, total), currentValue :: rest =>
      if values.length = 0 then
        stackReduceGo scaleToExtent (index + 1)
          ((if scaleToExtent then [currentValue, currentValue] else [some (.num 0), currentValue]),
            currentValue) rest
      else
        stackReduceGo scaleToExtent (index + 1)
          (values ++ [some (jsAddN (values.getD index none) currentValue)],
            some (jsAddN total currentValue)) rest

/-- The per-x body of `computeYStackedMapValues`: cumulative values, the
percent array (`value / total`, guarded to `0` when `total === 0`), and the
total. -/
def stackOne (scaleToExtent : Bool) (yStackArray : List (Option JsNum)) : StackedValues :=
  let stackArray := stackReduceGo scaleToExtent 0 ([], some (.num 0)) yStackArray
  let percent := stackArray.1.map (fun value =>
    if stackArray.2 = some (.num 0) then .num 0
    else jsDiv (jsToNumber value) (jsToNumber stackArray.2))
  { values := stackArray.1, percent := percent, total := stackArray.2 }

/-- Iteration of `computeYStackedMapValues` over the map entries. -/
def computeYLoop (scaleToExtent : Bool) :
    List (JsVal × List (Option JsNum)) → JsMap JsVal StackedValues → JsMap JsVal StackedValues
  | [], acc => acc
  | (xValue, yStackArray) :: rest, acc =>
      computeYLoop scaleToExtent rest (jsMapSet acc xValue (stackOne scaleToExtent yStackArray))

/-- `computeYStackedMapValues`: stack the per-x arrays one after the other,
summing the previous value into the next one. -/
def computeYStackedMapValues (yValueStackMap : JsMap JsVal (List (Option JsNum)))
    (scaleToExtent : Bool) : JsMap JsVal StackedValues :=
  computeYLoop scaleToExtent yValueStackMap []

/-- `getStackedFormattedSeriesDatum`: format one raw datum against the
stacked values map (percentage conversion, extent handling, stacking for
series index > 0, null propagation in the non-percentage branch). -/
def getStackedFormattedSeriesDatum (data : RawDataSeriesDatum)
    (stackedValues : JsMap JsVal StackedValues) (seriesIndex : ℕ)
    (scaleToExtent : Bool) (isPercentageMode : Bool := false)
    (filled : Option FilledValues := none) : Option DataSeriesDatum :=
  match jsMapGet stackedValues data.x with
  | none => none
  | some stack =>
      let y1 : Option JsNum :=
        if isPercentageMode then
          match data.y1 with
          | some v =>
              some (if stack.total ≠ some (.num 0) then jsDiv v (jsToNumber stack.total) else .num 0)
          | none => none
        else data.y1
      let y0 : Option JsNum :=
        if isPercentageMode then
          match data.y0 with
          | some v =>
              some (if stack.total ≠ some (.num 0) then jsDiv v (jsToNumber stack.total) else .num 0)
          | none => none
        else data.y0
      let computedY0 : Option JsNum := if scaleToExtent then jsOrN y0 y1 else jsOrN y0 none
      let initialY0 : Option JsNum := if y0 = none then none else y0
      let mark : Option DVal := if isDefined data.mark then data.mark else none
      if seriesIndex = 0 then
        some { x := data.x, y1 := y1, y0 := computedY0, initialY1 := y1, initialY0 := initialY0,
               mark := mark, datum := data.datum, filled := filled }
      else
        let stackY : Option JsNum :=
          if isPercentageMode then stack.percent.get? seriesIndex
          else (stack.values.get? seriesIndex).join
        let stackedY1 : Option JsNum :=
          if isPercentageMode then
            match y1, stackY with
            | some a, some b => some (jsAdd b a)
            | _, _ => none
          else
            match stackY with
            | none => if y1.isSome then y1 else none
            | some b =>
                match y1 with
                | some a => some (jsAdd b a)
                | none => none
        let stackedY0 : Option JsNum :=
          if isPercentageMode then
            match y0, stackY with
            | some a, some b => some (jsAdd b a)
            | _, _ => stackY
          else
            match stackY with
            | none => if y0.isSome then y0 else stackY
            | some b =>
                match y0 with
                | some a => some (jsAdd b a)
                | none => stackY
        -- configure null y0 if y1 is null (non-percentage branch only)
        let stackedY0 : Option JsNum :=
          if isPercentageMode then stackedY0
          else if stackedY1 = none then none else stackedY0
        some { x := data.x, y1 := stackedY1, y0 := stackedY0, initialY1 := y1,
               initialY0 := initialY0, mark := mark, datum := data.datum, filled := filled }

/-- Loop of `formatStackedDataSeriesValues` over one series' real data:
format each datum (skipping those with no stack entry) and drop each
emitted x from the missing set. -/
def formatDatumLoop (stackedValues : JsMap JsVal StackedValues) (seriesIndex : ℕ)
    (scaleToExtent isPercentageMode : Bool) :
    List RawDataSeriesDatum → List DataSeriesDatum × List JsVal →
    List DataSeriesDatum × List JsVal
  | [], st => st
  | data :: rest, (newData, missing) =>
      match getStackedFormattedSeriesDatum data stackedValues seriesIndex scaleToExtent
          isPercentageMode none with
      | none => formatDatumLoop stackedValues seriesIndex scaleToExtent isPercentageMode rest
          (newData, missing)
      | some d => formatDatumLoop stackedValues seriesIndex scaleToExtent isPercentageMode rest
          (newData ++ [d], missing.filter (fun k => decide (k ≠ data.x)))

/-- Loop of `formatStackedDataSeriesValues` over the still-missing x
values: synthesize a `0`-valued datum tagged with its `filled` values. -/
def formatMissingLoop (stackedValues : JsMap JsVal StackedValues) (seriesIndex : ℕ)
    (scaleToExtent isPercentageMode : Bool) :
    List JsVal → List DataSeriesDatum → List DataSeriesDatum
  | [], newData => newData
  | x :: rest, newData =>
      match getStackedFormattedSeriesDatum
          { x := x, y1 := some (.num 0), mark := none, datum := none }
          stackedValues seriesIndex scaleToExtent isPercentageMode
          (some { x := some x, y1 := some (.num 0) }) with
      | none => formatMissingLoop stackedValues seriesIndex scaleToExtent isPercentageMode rest
          newData
      | some d => formatMissingLoop stackedValues seriesIndex scaleToExtent isPercentageMode rest
          (newData ++ [d])

/-- Per-series loop of `formatStackedDataSeriesValues`. -/
def formatSeriesLoop (stackedValues : JsMap JsVal StackedValues)
    (scaleToExtent isPercentageMode : Bool) (xValues : List JsVal) (xScaleType : ScaleType) :
    ℕ → List RawDataSeries → List DataSeries
  | _, [] => []
  | seriesIndex, ds :: rest =>
      let st := formatDatumLoop stackedValues seriesIndex scaleToExtent isPercentageMode ds.data
        ([], xValues)
      let newData := formatMissingLoop stackedValues seriesIndex scaleToExtent isPercentageMode
        st.2 st.1
      { toXYChartSeriesIdentifier := ds.toXYChartSeriesIdentifier,
        data := jsSort (datumXSortPredicate xScaleType) newData } ::
        formatSeriesLoop stackedValues scaleToExtent isPercentageMode xValues xScaleType
          (seriesIndex + 1) rest

/-- `formatStackedDataSeriesValues`: stack a group of raw series over the
x-value universe, gap-filling and sorting each series' output. -/
def formatStackedDataSeriesValues (dataseries : List RawDataSeries)
    (scaleToExtent isPercentageMode : Bool) (xValues : List JsVal)
    (xScaleType : ScaleType) : List DataSeries :=
  let yValueStackMap := getYValueStackMap dataseries xValues
  let stackedValues := computeYStackedMapValues yValueStackMap scaleToExtent
  formatSeriesLoop stackedValues scaleToExtent isPercentageMode xValues xScaleType 0 dataseries

/- ---------------- series.ts ---------------- -/

/-- The comparator the source passes to `sort` when building a series key:
`a > b ? 1 : -1` on the split-accessor identifiers. -/
def seriesKeyCmp (a b : JsVal × JsVal) : Int := if jsGTVal a.1 b.1 then 1 else -1

/-- `getSeriesKey`: global series key from spec id, y accessor and the
split-accessor entries sorted by accessor identifier. -/
def getSeriesKey (specId : String) (yAccessor : JsVal)
    (splitAccessors : JsMap JsVal JsVal) : String :=
  let joinedAccessors := String.intercalate ("|")
    ((jsSort seriesKeyCmp splitAccessors).map
      (fun kv => jsValToString kv.1 ++ "-" ++ jsValToString kv.2))
  "spec\x7b" ++ specId ++ "\x7dyAccessor\x7b" ++ jsValToString yAccessor ++
    "\x7dsplitAccessors\x7b" ++ joinedAccessors ++ "\x7d"

/-- Truthiness of a `string | number` value (`""` and `0` are falsy). -/
def jsValTruthy : JsVal → Bool
  | .str s => decide (s ≠ "")
  | .num q => decide (q ≠ 0)

/-- An `Accessor | AccessorFn`: a field path or a custom extraction
function. -/
inductive XAccessor where
  | path (a : JsVal)
  | fn (f : JsObj → Option DVal)

/-- Modelled from the spec: `getAccessorValue` from `utils/accessor` —
invoke a function accessor, otherwise index the record by the (stringified)
field path. -/
def getAccessorValue (datum : JsObj) (accessor : XAccessor) : Option DVal :=
  match accessor with
  | .fn f => f datum
  | .path a => jsMapGet datum (jsValToString a)

/-- `castToNumber`: numeric coercion of a field value; `null`, `undefined`
and `NaN` results become `null`. -/
def castToNumber (value : Option DVal) : Option JsNum :=
  match value with
  | none => none
  | some v =>
      match jsNumberOfDVal v with
      | .nan => none
      | n => some n

/-- `cleanDatum`: extract `{x, y1, y0?, mark?}` from one raw record; `none`
when the record is not an object or x is not a string/number. -/
def cleanDatum (datum : Option JsObj) (xAccessor : XAccessor) (yAccessor : JsVal)
    (y0Accessor : Option JsVal) (markSizeAccessor : Option XAccessor) :
    Option RawDataSeriesDatum :=
  match datum with
  | none => none
  | some obj =>
      let xv := getAccessorValue obj xAccessor
      match xv with
      | some (.str s) => some (cleanDatumBody obj (JsVal.str s) yAccessor y0Accessor markSizeAccessor)
      | some (.num q) => some (cleanDatumBody obj (JsVal.num q) yAccessor y0Accessor markSizeAccessor)
      | _ => none
where
  cleanDatumBody (obj : JsObj) (x : JsVal) (yAccessor : JsVal) (y0Accessor : Option JsVal)
      (markSizeAccessor : Option XAccessor) : RawDataSeriesDatum :=
    let mark : Option DVal :=
      match markSizeAccessor with
      | none => none
      | some a => getAccessorValue obj a
    let y1 := castToNumber (jsMapGet obj (jsValToString yAccessor))
    let cleanedDatum : RawDataSeriesDatum :=
      { x := x, y1 := y1, datum := some obj, y0 := none, mark := mark }
    match y0Accessor with
    | some a =>
        if jsValTruthy a then
          { cleanedDatum with y0 := castToNumber (jsMapGet obj (jsValToString a)) }
        else cleanedDatum
    | none => cleanedDatum

/-- `getSplitAccessors`: the accessor→value mapping of one record,
keeping only string/number values. -/
def getSplitAccessors (datum : Option JsObj) (accessors : List JsVal) : JsMap JsVal JsVal :=
  match datum with
  | none => []
  | some obj =>
      accessors.foldl (fun splitAccessors accessor =>
        match jsMapGet obj (jsValToString accessor) with
        | some (.str s) => jsMapSet splitAccessors accessor (.str s)
        | some (.num q) => jsMapSet splitAccessors accessor (.num q)
        | _ => splitAccessors) []

/-- `updateSeriesMap`: append the datum to the keyed series, creating the
series on first sight; returns the updated map and the series key. -/
def updateSeriesMap (seriesMap : JsMap String RawDataSeries)
    (splitAccessors : JsMap JsVal JsVal) (accessor : JsVal)
    (datum : RawDataSeriesDatum) (specId : String) : JsMap String RawDataSeries × String :=
  let seriesKeys := splitAccessors.map Prod.snd ++ [accessor]
  let seriesKey := getSeriesKey specId accessor splitAccessors
  match jsMapGet seriesMap seriesKey with
  | some series =>
      (jsMapSet seriesMap seriesKey { series with data := series.data ++ [datum] }, seriesKey)
  | none =>
      (jsMapSet seriesMap seriesKey
        { specId := specId, key := seriesKey, yAccessor := accessor,
          splitAccessors := splitAccessors, seriesKeys := seriesKeys, data := [datum] },
        seriesKey)

/-- The relevant fields of a `BasicSeriesSpec`. -/
structure BasicSeriesSpec where
  id : String
  data : List (Option JsObj)
  xAccessor : XAccessor
  yAccessors : List JsVal
  y0Accessors : Option (List JsVal) := none
  markSizeAccessor : Option XAccessor := none
  splitSeriesAccessors : List JsVal := []
  xScaleType : ScaleType
  sortIndex : Option ℤ := none

/-- Result shape of `splitSeries`. -/
structure SplitSeriesResult where
  rawDataSeries : List RawDataSeries
  colorsValues : List String
  xValues : List JsVal
deriving DecidableEq, Repr

/-- State threaded through the `splitSeries` data loop. -/
abbrev SplitState := JsMap String RawDataSeries × List String × List JsVal

/-- Accumulate one cleaned datum into the `splitSeries` state. -/
def splitAccumulate (specId : String) (splitAccessors : JsMap JsVal JsVal)
    (accessor : JsVal) (cleaned : Option RawDataSeriesDatum) (st : SplitState) : SplitState :=
  match cleaned with
  | none => st
  | some cleanedDatum =>
      let xValues := jsSetAdd st.2.2 cleanedDatum.x
      let su := updateSeriesMap st.1 splitAccessors accessor cleanedDatum specId
      (su.1, jsSetAdd st.2.1 su.2, xValues)

/-- The multiple-y-accessor fan-out of `splitSeries` (one cleaned point per
y accessor, with the parallel `y0Accessors` entry picked by index). -/
def splitYLoop (spec : BasicSeriesSpec) (datum : Option JsObj)
    (splitAccessors : JsMap JsVal JsVal) :
    ℕ → List JsVal → SplitState → SplitState
  | _, [], st => st
  | index, accessor :: rest, st =>
      let cleaned := cleanDatum datum spec.xAccessor accessor
        (match spec.y0Accessors with
          | none => none
          | some l => l.get? index)
        spec.markSizeAccessor
      splitYLoop spec datum splitAccessors (index + 1) rest
        (splitAccumulate spec.id splitAccessors accessor cleaned st)

/-- `splitSeries`: split one spec's dataset into keyed raw series,
collecting the color keys and the x values. -/
def splitSeries (spec : BasicSeriesSpec) : SplitSeriesResult :=
  let isMultipleY := spec.yAccessors.length > 1
  let st := spec.data.foldl (fun (st : SplitState) datum =>
    let splitAccessors := getSplitAccessors datum spec.splitSeriesAccessors
    if spec.splitSeriesAccessors.length > 0 ∧ splitAccessors.length < 1 then st
    else if isMultipleY then
      splitYLoop spec datum splitAccessors 0 spec.yAccessors st
    else
      let accessor := spec.yAccessors.getD 0 (.str ("undefined"))
      let cleaned := cleanDatum datum spec.xAccessor accessor
        (match spec.y0Accessors with
          | none => none
          | some l => l.get? 0)
        spec.markSizeAccessor
      splitAccumulate spec.id splitAccessors accessor cleaned st) ([], [], [])
  { rawDataSeries := st.1.map Prod.snd, colorsValues := st.2.1, xValues := st.2.2 }

/-- The base `SeriesIdentifier` (used for deselection matching). -/
structure SeriesIdentifier where
  specId : String
  key : String
deriving DecidableEq, Repr

/-- `SeriesCollectionValue`: per-series metadata for naming/coloring. -/
structure SeriesCollectionValue where
  banded : Bool
  specSortIndex : Option ℤ
  seriesIdentifier : XYChartSeriesIdentifier
deriving DecidableEq, Repr

/-- Result shape of `getSplittedSeries`. -/
structure SplittedSeriesResult where
  splittedSeries : JsMap String (List RawDataSeries)
  seriesCollection : JsMap String SeriesCollectionValue
  xValues : List JsVal

/-- The default (string-conversion) comparator of `Array.prototype.sort`,
used on the final x-value set. -/
def jsDefaultCmp (a b : JsVal) : Int :=
  match compare (jsValToString a) (jsValToString b) with
  | .lt => -1
  | .eq => 0
  | .gt => 1

/-- State of the `getSplittedSeries` spec loop. -/
abbrev SplittedState :=
  JsMap String (List RawDataSeries) × JsMap String SeriesCollectionValue × List JsVal × Bool

/-- Per-spec loop of `getSplittedSeries`: split, filter out deselected
series for the per-spec map, but register *all* split series (including
deselected ones) in the series collection. -/
def getSplittedSeriesLoop (deselectedDataSeries : List SeriesIdentifier) :
    List BasicSeriesSpec → SplittedState → SplittedState
  | [], st => st
  | spec :: rest, (splittedSeries, seriesCollection, xValues, isOrdinalScale) =>
      let dataSeries := splitSeries spec
      let isOrdinalScale := if spec.xScaleType = .ordinal then true else isOrdinalScale
      let currentRawDataSeries :=
        if deselectedDataSeries.length > 0 then
          dataSeries.rawDataSeries.filter
            (fun s => !(deselectedDataSeries.any (fun d => d.key = s.key)))
        else dataSeries.rawDataSeries
      let splittedSeries := jsMapSet splittedSeries spec.id currentRawDataSeries
      let banded :=
        match spec.y0Accessors with
        | some l => l.length > 0
        | none => false
      let seriesCollection := dataSeries.rawDataSeries.foldl
        (fun c series => jsMapSet c series.key
          { banded := banded, specSortIndex := spec.sortIndex,
            seriesIdentifier := series.toXYChartSeriesIdentifier }) seriesCollection
      let xValues := dataSeries.xValues.foldl jsSetAdd xValues
      getSplittedSeriesLoop deselectedDataSeries rest
        (splittedSeries, seriesCollection, xValues, isOrdinalScale)

/-- `getSplittedSeries`: split every spec, dropping deselected series from
the per-spec map only; the x-value set keeps user order for ordinal scales
and is sorted (default string comparator) otherwise. -/
def getSplittedSeries (seriesSpecs : List BasicSeriesSpec)
    (deselectedDataSeries : List SeriesIdentifier := []) : SplittedSeriesResult :=
  let st := getSplittedSeriesLoop deselectedDataSeries seriesSpecs ([], [], [], false)
  { splittedSeries := st.1, seriesCollection := st.2.1,
    xValues := if st.2.2.2 then st.2.2.1 else (jsSort jsDefaultCmp st.2.2.1).foldl jsSetAdd [] }

/- ---------------- color resolution ---------------- -/

/-- The palette portion of the chart theme. -/
structure ColorConfig where
  vizColors : List String
deriving DecidableEq, Repr

/-- Temporary and persisted color overrides (string-keyed records). -/
structure ColorOverrides where
  temporary : JsMap String String
  persisted : JsMap String String
deriving DecidableEq, Repr

/-- Truthiness of a possibly-absent string (`undefined` and `""` are
falsy). -/
def jsStrTruthy : Option String → Bool
  | none => false
  | some s => decide (s ≠ "")

/-- `getHighestOverride`: first *truthy* color among the temporary
override and the custom color map, else the persisted override verbatim. -/
def getHighestOverride (key : String) (customColors : JsMap String String)
    (overrides : ColorOverrides) : Option String :=
  let color := jsMapGet overrides.temporary key
  if jsStrTruthy color then color
  else
    let color := jsMapGet customColors key
    if jsStrTruthy color then color
    else jsMapGet overrides.persisted key

/-- Loop of `getSeriesColors` with the palette counter (incremented once
per series, override or not). A series whose override chain ends falsy and
whose palette is empty is assigned `undefined` (`none`). -/
def getSeriesColorsLoop (chartColors : ColorConfig) (customColors : JsMap String String)
    (overrides : ColorOverrides) :
    List (String × SeriesCollectionValue) → JsMap String (Option String) × ℕ →
    JsMap String (Option String)
  | [], (seriesColorMap, _) => seriesColorMap
  | (seriesKey, _) :: rest, (seriesColorMap, counter) =>
      let colorOverride := getHighestOverride seriesKey customColors overrides
      let color : Option String :=
        if jsStrTruthy colorOverride then colorOverride
        else chartColors.vizColors.get? (counter % chartColors.vizColors.length)
      getSeriesColorsLoop chartColors customColors overrides rest
        (jsMapSet seriesColorMap seriesKey color, counter + 1)

/-- `getSeriesColors`: assign a color to every series key of the
collection, in collection iteration order. -/
def getSeriesColors (seriesCollection : JsMap String SeriesCollectionValue)
    (chartColors : ColorConfig) (customColors : JsMap String String)
    (overrides : ColorOverrides) : JsMap String (Option String) :=
  getSeriesColorsLoop chartColors customColors overrides seriesCollection ([], 0)

/-- Specification-side color resolution for one series key at emission
index `i`: the first non-empty color in override-precedence order, else the
palette color at `i % paletteSize` (amended from the spec's "first defined
color": the source skips falsy — empty-string — colors). -/
def resolveColorSpec (key : String) (i : ℕ) (chartColors : ColorConfig)
    (customColors : JsMap String String) (overrides : ColorOverrides) : Option String :=
  if jsStrTruthy (jsMapGet overrides.temporary key) then jsMapGet overrides.temporary key
  else if jsStrTruthy (jsMapGet customColors key) then jsMapGet customColors key
  else if jsStrTruthy (jsMapGet overrides.persisted key) then jsMapGet overrides.persisted key
  else chartColors.vizColors.get? (i % chartColors.vizColors.length)

/-- The JavaScript sum of a nullable-number array (`null` coerced to `0`
by each `+`), used to state the stack total invariant. -/
def jsSumArr (arr : List (Option JsNum)) : JsNum :=
  arr.foldl (fun acc v => jsAdd acc (jsToNumber v)) (.num 0)

/-- Running cumulative sums starting strictly after `t`:
`cumsumFrom t [q1, q2, ...] = [t+q1, t+q1+q2, ...]`. -/
def cumsumFrom (t : ℚ) : List ℚ → List ℚ
  | [] => []
  | q :: qs => (t + q) :: cumsumFrom (t + q) qs

/- ---------------- map lemmas ---------------- -/

theorem jsMapGet_set_self {K V : Type} [DecidableEq K] (m : JsMap K V) (k : K) (v : V) :
    jsMapGet (jsMapSet m k v) k = some v := by
  induction m with
  | nil => simp [jsMapGet, jsMapSet]
  | cons p rest ih =>
    obtain ⟨k2, v2⟩ := p
    by_cases h : k2 = k
    · subst h
      simp [jsMapGet, jsMapSet]
    · simp [jsMapGet, jsMapSet, h, ih]

theorem jsMapGet_set_ne {K V : Type} [DecidableEq K] (m : JsMap K V) (k x : K) (v : V)
    (h : x ≠ k) : jsMapGet (jsMapSet m k v) x = jsMapGet m x := by
  induction m with
  | nil => simp [jsMapGet, jsMapSet, Ne.symm h]
  | cons p rest ih =>
    obtain ⟨k2, v2⟩ := p
    by_cases h2 : k2 = k
    · subst h2
      simp [jsMapGet, jsMapSet, Ne.symm h]
    · by_cases h3 : k2 = x
      · subst h3
        simp [jsMapGet, jsMapSet, h2]
      · simp [jsMapGet, jsMapSet, h2, h3, ih]

theorem jsMapGet_eq_none_of_not_mem_keys {K V : Type} [DecidableEq K] {m : JsMap K V} {k : K}
    (h : k ∉ m.map Prod.fst) : jsMapGet m k = none := by
  induction m with
  | nil => simp [jsMapGet]
  | cons p rest ih =>
    obtain ⟨k2, v2⟩ := p
    simp only [List.map_cons, List.mem_cons] at h
    push_neg at h
    simp [jsMapGet, Ne.symm h.1, ih h.2]

theorem jsMapGet_mem {K V : Type} [DecidableEq K] {m : JsMap K V} {k : K} {v : V}
    (h : jsMapGet m k = some v) : (k, v) ∈ m := by
  induction m with
  | nil => simp [jsMapGet] at h
  | cons p rest ih =>
    obtain ⟨k2, v2⟩ := p
    by_cases h2 : k2 = k
    · subst h2
      simp [jsMapGet] at h
      simp [h]
    · simp [jsMapGet, h2] at h
      exact List.mem_cons_of_mem _ (ih h)

theorem jsMapSet_mem {K V : Type} [DecidableEq K] {m : JsMap K V} {k : K} {v : V}
    {p : K × V} (h : p ∈ jsMapSet m k v) : p = (k, v) ∨ p ∈ m := by
  induction m with
  | nil => simpa [jsMapSet] using h
  | cons q rest ih =>
    obtain ⟨k2, v2⟩ := q
    by_cases h2 : k2 = k
    · subst h2
      simp [jsMapSet] at h
      rcases h with h | h
      · exact Or.inl h
      · exact Or.inr (List.mem_cons_of_mem _ h)
    · simp [jsMapSet, h2] at h
      rcases h with h | h
      · exact Or.inr (by simp [h])
      · rcases ih h with h3 | h3
        · exact Or.inl h3
        · exact Or.inr (List.mem_cons_of_mem _ h3)

theorem jsMapGet_set_isSome {K V : Type} [DecidableEq K] (m : JsMap K V) (k x : K) (v : V)
    (h : (jsMapGet m x).isSome = true) : (jsMapGet (jsMapSet m k v) x).isSome = true := by
  by_cases h2 : x = k
  · subst h2
    simp [jsMapGet_set_self]
  · rwa [jsMapGet_set_ne m k x v h2]

theorem jsMapGet_set_isSome_self {K V : Type} [DecidableEq K] (m : JsMap K V) (k : K) (v : V) :
    (jsMapGet (jsMapSet m k v) k).isSome = true := by
  simp [jsMapGet_set_self]

/- ---------------- computeYStackedMapValues lemmas ---------------- -/

/-- Every entry of the stacked map is `stackOne` of some input entry. -/
theorem computeYLoop_mem {scaleToExtent : Bool}
    {l : List (JsVal × List (Option JsNum))} {acc : JsMap JsVal StackedValues}
    {p : JsVal × StackedValues} (h : p ∈ computeYLoop scaleToExtent l acc) :
    p ∈ acc ∨ ∃ arr, (p.1, arr) ∈ l ∧ p.2 = stackOne scaleToExtent arr := by
  induction l generalizing acc with
  | nil => exact Or.inl (by simpa [computeYLoop] using h)
  | cons q rest ih =>
    obtain ⟨x, arr⟩ := q
    simp only [computeYLoop] at h
    rcases ih h with h2 | h2
    · rcases jsMapSet_mem h2 with h3 | h3
      · refine Or.inr ⟨arr, ?_, ?_⟩
        · simp [show p.1 = x by rw [h3]]
        · rw [h3]
      · exact Or.inl h3
    · obtain ⟨arr2, hmem, heq⟩ := h2
      exact Or.inr ⟨arr2, List.mem_cons_of_mem _ hmem, heq⟩

/-- With duplicate-free input keys, the stacked map is a pointwise image of
the input map. -/
theorem computeYLoop_get {scaleToExtent : Bool}
    (l : List (JsVal × List (Option JsNum))) (acc : JsMap JsVal StackedValues) (x : JsVal)
    (hnd : (l.map Prod.fst).Nodup)
    (hacc : ∀ k ∈ l.map Prod.fst, jsMapGet acc k = none) :
    jsMapGet (computeYLoop scaleToExtent l acc) x =
      match jsMapGet l x with
      | some arr => some (stackOne scaleToExtent arr)
      | none => jsMapGet acc x := by
  induction l generalizing acc with
  | nil => simp [computeYLoop, jsMapGet]
  | cons q rest ih =>
    obtain ⟨k, arr⟩ := q
    simp only [List.map_cons, List.nodup_cons] at hnd
    have hrest : ∀ k2 ∈ rest.map Prod.fst,
        jsMapGet (jsMapSet acc k (stackOne scaleToExtent arr)) k2 = none := by
      intro k2 hk2
      have hne : k2 ≠ k := fun hh => hnd.1 (hh ▸ hk2)
      rw [jsMapGet_set_ne _ _ _ _ hne]
      exact hacc k2 (by simp [hk2])
    simp only [computeYLoop]
    rw [ih _ hnd.2 hrest]
    by_cases hx : k = x
    · subst hx
      have : jsMapGet rest k = none :=
        jsMapGet_eq_none_of_not_mem_keys hnd.1
      simp [jsMapGet, this, jsMapGet_set_self]
    · cases hrg : jsMapGet rest x with
      | none => simp [jsMapGet, hx, hrg, jsMapGet_set_ne _ _ _ _ (fun hh => hx hh.symm)]
      | some arr2 => simp [jsMapGet, hx, hrg]

theorem computeYStackedMapValues_get {scaleToExtent : Bool}
    (m : JsMap JsVal (List (Option JsNum))) (x : JsVal)
    (hnd : (m.map Prod.fst).Nodup) :
    jsMapGet (computeYStackedMapValues m scaleToExtent) x =
      (jsMapGet m x).map (stackOne scaleToExtent) := by
  rw [computeYStackedMapValues, computeYLoop_get m [] x hnd (fun _ _ => rfl)]
  cases jsMapGet m x <;> simp [jsMapGet]

/- ---------------- stack reduce lemmas ---------------- -/

theorem jsAdd_zero_left (x : JsNum) : jsAdd (.num 0) x = x := by
  cases x <;> simp [jsAdd]

theorem getLast?_eq_getD_of_length {α : Type} :
    ∀ (l : List α) (k : ℕ) (d : α), l.length = k + 1 → l.getLast? = some (l.getD k d)
  | [], k, d, h => by simp at h
  | [a], 0, d, _ => rfl
  | [a], k + 1, d, h => by simp at h
  | a :: b :: l, 0, d, h => by simp at h
  | a :: b :: l, k + 1, d, h => by
      rw [List.getLast?_cons_cons, List.getD_cons_succ]
      exact getLast?_eq_getD_of_length (b :: l) k d (by simpa using h)

/-- Once seeded, the running total of the stack reduce is the JavaScript
fold of `+` over the remaining entries. -/
theorem stackReduceGo_total (scaleToExtent : Bool) :
    ∀ (l : List (Option JsNum)) (k : ℕ) (vs : List (Option JsNum)) (t : Option JsNum),
      vs ≠ [] →
      (stackReduceGo scaleToExtent k (vs, t) l).2 =
        l.foldl (fun acc v => some (jsAdd (jsToNumber acc) (jsToNumber v))) t := by
  intro l
  induction l with
  | nil => intro k vs t _; rfl
  | cons cur rest ih =>
    intro k vs t hvs
    have hlen : ¬ vs.length = 0 := by simpa using hvs
    simp only [stackReduceGo, hlen, if_false, List.foldl_cons]
    rw [ih (k + 1) _ _ (by simp)]
    rfl

/-- Once seeded, the stack reduce appends one cumulative entry per element
and keeps the invariant `values[last] = total`. -/
theorem stackReduceGo_last (scaleToExtent : Bool) :
    ∀ (l : List (Option JsNum)) (k : ℕ) (vs : List (Option JsNum)) (t : Option JsNum),
      vs.length = k + 1 → vs.getD k none = t →
      (stackReduceGo scaleToExtent k (vs, t) l).1.length = k + 1 + l.length ∧
        (stackReduceGo scaleToExtent k (vs, t) l).1.getD (k + l.length) none =
          (stackReduceGo scaleToExtent k (vs, t) l).2 := by
  intro l
  induction l with
  | nil =>
    intro k vs t hlen hget
    constructor
    · simpa [stackReduceGo] using hlen
    · simpa [stackReduceGo] using hget
  | cons cur rest ih =>
    intro k vs t hlen hget
    have hlen0 : ¬ vs.length = 0 := by omega
    simp only [stackReduceGo, hlen0, if_false]
    have happ : (vs ++ [some (jsAddN (vs.getD k none) cur)]).length = (k + 1) + 1 := by
      simp [hlen]
    have hget2 : (vs ++ [some (jsAddN (vs.getD k none) cur)]).getD (k + 1) none =
        some (jsAddN t cur) := by
      rw [List.getD_append_right _ _ _ _ (by omega), hget]
      simp [hlen]
    have h := ih (k + 1) _ _ happ hget2
    refine ⟨?_, ?_⟩
    · rw [show k + 1 + (cur :: rest).length = (k + 1) + 1 + rest.length by simp; omega]
      exact h.1
    · rw [show k + (cur :: rest).length = (k + 1) + rest.length by simp; omega]
      exact h.2

/-- Fold form of the running total when the accumulator is a number. -/
theorem foldl_jsAdd_some (l : List (Option JsNum)) :
    ∀ (n : JsNum), l.foldl (fun acc v => some (jsAdd (jsToNumber acc) (jsToNumber v))) (some n) =
      some (l.foldl (fun acc v => jsAdd acc (jsToNumber v)) n) := by
  induction l with
  | nil => intro n; rfl
  | cons cur rest ih => intro n; simp only [List.foldl_cons, jsToNumber]; exact ih _

/-- The recorded total of one stacked x value: the JavaScript sum of the
stack array (null as 0) — except for the singleton `[null]` array, whose
total is `null` because the reduce seeds the total with the raw value. -/
theorem stackOne_total (scaleToExtent : Bool) (arr : List (Option JsNum)) :
    (stackOne scaleToExtent arr).total =
      if arr = [none] then none else some (jsSumArr arr) := by
  cases arr with
  | nil => cases scaleToExtent <;> rfl
  | cons v rest =>
    have hseed : (stackOne scaleToExtent (v :: rest)).total =
        rest.foldl (fun acc w => some (jsAdd (jsToNumber acc) (jsToNumber w))) v := by
      show (stackReduceGo scaleToExtent 0 ([], some (.num 0)) (v :: rest)).2 = _
      simp only [stackReduceGo, List.length_nil, if_true]
      cases scaleToExtent
      · exact stackReduceGo_total false rest 1 _ v (by simp)
      · exact stackReduceGo_total true rest 1 _ v (by simp)
    rw [hseed]
    cases rest with
    | nil =>
      cases v with
      | none => rfl
      | some n => simp [jsSumArr, jsToNumber, jsAdd_zero_left]
    | cons w rest2 =>
      simp only [List.foldl_cons, foldl_jsAdd_some]
      have hne : ¬ (v :: w :: rest2 = [none]) := by simp
      rw [if_neg hne]
      simp [jsSumArr, jsAdd_zero_left]

/-- The cumulative values of one non-empty stacked x value end at the
recorded total. -/
theorem stackOne_values_last (scaleToExtent : Bool) (v : Option JsNum)
    (rest : List (Option JsNum)) :
    (stackOne scaleToExtent (v :: rest)).values.getLast? =
      some (stackOne scaleToExtent (v :: rest)).total := by
  have hval : (stackOne scaleToExtent (v :: rest)).values =
      (stackReduceGo scaleToExtent 0 ([], some (.num 0)) (v :: rest)).1 := rfl
  have htot : (stackOne scaleToExtent (v :: rest)).total =
      (stackReduceGo scaleToExtent 0 ([], some (.num 0)) (v :: rest)).2 := rfl
  rw [hval, htot]
  simp only [stackReduceGo, List.length_nil, if_true]
  have h : ∀ (b : Bool) (seed : List (Option JsNum)), seed.length = 1 + 1 →
      seed.getD 1 none = v →
      (stackReduceGo b 1 (seed, v) rest).1.getLast? = some (stackReduceGo b 1 (seed, v) rest).2 := by
    intro b seed hlen hget
    have h2 := stackReduceGo_last b rest 1 seed v hlen hget
    rw [getLast?_eq_getD_of_length _ (1 + rest.length) none (by omega), h2.2]
  cases scaleToExtent
  · exact h false _ (by simp) (by simp)
  · exact h true _ (by simp) (by simp)

/-- `q0 :: cumsumFrom q0 qs` is the scan of `+` over `qs` from `q0`. -/
theorem cumsumFrom_eq_scanl (qs : List ℚ) :
    ∀ (q0 : ℚ), q0 :: cumsumFrom q0 qs = List.scanl (· + ·) q0 qs := by
  induction qs with
  | nil => intro q0; rfl
  | cons q rest ih =>
    intro q0
    rw [List.scanl_cons, cumsumFrom, ← ih (q0 + q)]
    simp

/-- Numeric stack arrays reduce to exact cumulative sums. -/
theorem stackReduceGo_num (scaleToExtent : Bool) :
    ∀ (qs : List ℚ) (k : ℕ) (vs : List (Option JsNum)) (t : ℚ),
      vs.length = k + 1 → vs.getD k none = some (.num t) →
      stackReduceGo scaleToExtent k (vs, some (.num t))
          (qs.map (fun q => some (JsNum.num q))) =
        (vs ++ (cumsumFrom t qs).map (fun q => some (JsNum.num q)), some (.num (t + qs.sum))) := by
  intro qs
  induction qs with
  | nil =>
    intro k vs t _ _
    simp [stackReduceGo, cumsumFrom]
  | cons q rest ih =>
    intro k vs t hlen hget
    have hlen0 : ¬ vs.length = 0 := by omega
    simp only [List.map_cons, stackReduceGo, hlen0, if_false]
    have hstep : some (jsAddN (vs.getD k none) (some (JsNum.num q))) = some (JsNum.num (t + q)) := by
      rw [hget]
      rfl
    have hstept : some (jsAddN (some (JsNum.num t)) (some (JsNum.num q))) =
        some (JsNum.num (t + q)) := rfl
    rw [hstep, hstept]
    have happ : (vs ++ [some (JsNum.num (t + q))]).length = (k + 1) + 1 := by simp [hlen]
    have hget2 : (vs ++ [some (JsNum.num (t + q))]).getD (k + 1) none =
        some (JsNum.num (t + q)) := by
      rw [List.getD_append_right _ _ _ _ (by omega)]
      simp [hlen]
    rw [ih (k + 1) _ (t + q) happ hget2]
    simp [cumsumFrom]
    ring

theorem getLast?_map_eq {α β : Type} (f : α → β) :
    ∀ (l : List α), (l.map f).getLast? = l.getLast?.map f
  | [] => rfl
  | [a] => rfl
  | a :: b :: l => by
      rw [List.map_cons, List.map_cons, List.getLast?_cons_cons, List.getLast?_cons_cons,
        ← List.map_cons f b l]
      exact getLast?_map_eq f (b :: l)

/-- The cumulative values of a numeric stack array: the seed followed by
the running sums. -/
theorem stackOne_values_num (scaleToExtent : Bool) (q0 : ℚ) (qs : List ℚ) :
    (stackOne scaleToExtent ((q0 :: qs).map (fun q => some (JsNum.num q)))).values =
      (if scaleToExtent then some (JsNum.num q0) else some (JsNum.num 0)) ::
        (q0 :: cumsumFrom q0 qs).map (fun q => some (JsNum.num q)) := by
  show (stackReduceGo scaleToExtent 0 ([], some (.num 0)) _).1 = _
  cases scaleToExtent with
  | false =>
    simp only [List.map_cons, stackReduceGo, List.length_nil, if_true, if_false, Bool.false_eq_true]
    rw [stackReduceGo_num false qs 1 [some (.num 0), some (.num q0)] q0 (by simp) rfl]
    simp
  | true =>
    simp only [List.map_cons, stackReduceGo, List.length_nil, if_true]
    rw [stackReduceGo_num true qs 1 [some (.num q0), some (.num q0)] q0 (by simp) rfl]
    simp

/-- With a zero total, every percent entry is the literal `0` produced by
the zero-total guard. -/
theorem stackOne_percent_zero (scaleToExtent : Bool) (arr : List (Option JsNum))
    (h : (stackOne scaleToExtent arr).total = some (JsNum.num 0)) :
    ∀ p ∈ (stackOne scaleToExtent arr).percent, p = JsNum.num 0 := by
  intro p hp
  have htot : (stackReduceGo scaleToExtent 0 ([], some (.num 0)) arr).2 = some (JsNum.num 0) := h
  simp only [stackOne, htot, if_pos rfl, List.mem_map] at hp
  obtain ⟨v, _, hv⟩ := hp
  exact hv.symm

/-- Any stacked-map entry with a zero total has an all-zero percent
array. -/
theorem computeY_percent_zero (m : JsMap JsVal (List (Option JsNum))) (scaleToExtent : Bool)
    (x : JsVal) (sv : StackedValues)
    (hout : jsMapGet (computeYStackedMapValues m scaleToExtent) x = some sv)
    (htot : sv.total = some (JsNum.num 0)) :
    ∀ p ∈ sv.percent, p = JsNum.num 0 := by
  have hmem := jsMapGet_mem hout
  rcases computeYLoop_mem hmem with h | h
  · simp at h
  · obtain ⟨arr, _, heq⟩ := h
    have heq2 : sv = stackOne scaleToExtent arr := heq
    rw [heq2] at htot ⊢
    exact stackOne_percent_zero scaleToExtent arr htot

/-- The last percent entry is exactly `1` whenever the total is a nonzero
number. -/
theorem stackOne_percent_last (scaleToExtent : Bool) (arr : List (Option JsNum)) (t : ℚ)
    (htot : (stackOne scaleToExtent arr).total = some (JsNum.num t)) (hne : t ≠ 0) :
    (stackOne scaleToExtent arr).percent.getLast? = some (JsNum.num 1) := by
  cases arr with
  | nil =>
    exfalso
    apply hne
    have : (stackOne scaleToExtent ([] : List (Option JsNum))).total = some (JsNum.num 0) := by
      cases scaleToExtent <;> rfl
    rw [this] at htot
    exact (JsNum.num.injEq _ _ ▸ (Option.some.injEq _ _ ▸ htot)).symm
  | cons v rest =>
    have hlast := stackOne_values_last scaleToExtent v rest
    have hperc : (stackOne scaleToExtent (v :: rest)).percent =
        (stackOne scaleToExtent (v :: rest)).values.map (fun value =>
          if (stackOne scaleToExtent (v :: rest)).total = some (JsNum.num 0) then JsNum.num 0
          else jsDiv (jsToNumber value) (jsToNumber (stackOne scaleToExtent (v :: rest)).total)) :=
      rfl
    rw [hperc, getLast?_map_eq, hlast, htot]
    have hne2 : ¬ (some (JsNum.num t) = some (JsNum.num 0)) := by
      simp [hne]
    simp only [Option.map_some, hne2, if_false, jsToNumber]
    simp [jsDiv, hne, div_self hne]

/- ---------------- claims about computeYStackedMapValues ---------------- -/

/-- C2 (counterexample): the claim `sum over all i of percent[i] ≈ 1.0 when
total ≠ 0` fails: for the stack array `[10, 5]` the percent array is the
*cumulative* `[0, 2/3, 1]`, whose entries sum to `5/3`, not `1`. -/
theorem percent_sum_not_one_cex :
    jsMapGet (computeYStackedMapValues
        [(JsVal.num 1, [some (JsNum.num 10), some (JsNum.num 5)])] false) (JsVal.num 1) =
      some { values := [some (JsNum.num 0), some (JsNum.num 10), some (JsNum.num 15)],
             percent := [JsNum.num 0, JsNum.num (2/3), JsNum.num 1],
             total := some (JsNum.num 15) } ∧
    ((0 : ℚ) + 2/3 + 1 ≠ 1) := by
  constructor
  · norm_num [computeYStackedMapValues, computeYLoop, jsMapSet, jsMapGet, stackOne,
      stackReduceGo, jsAddN, jsToNumber, jsAdd, jsDiv]
  · norm_num

/-- C2 (amended): for every x value of the stacked map, when the recorded
total is a nonzero number the *last* percent entry equals `1` exactly (the
percent array is cumulative, so its entries do not themselves sum to 1);
when the total is `0` every percent entry is `0`. -/
theorem percent_normalization (m : JsMap JsVal (List (Option JsNum))) (scaleToExtent : Bool)
    (x : JsVal) (sv : StackedValues)
    (hout : jsMapGet (computeYStackedMapValues m scaleToExtent) x = some sv) :
    (∀ t : ℚ, sv.total = some (JsNum.num t) → t ≠ 0 →
      sv.percent.getLast? = some (JsNum.num 1)) ∧
    (sv.total = some (JsNum.num 0) → ∀ p ∈ sv.percent, p = JsNum.num 0) := by
  constructor
  · intro t htot hne
    have hmem := jsMapGet_mem hout
    rcases computeYLoop_mem hmem with h | h
    · simp at h
    · obtain ⟨arr, _, heq⟩ := h
      have heq2 : sv = stackOne scaleToExtent arr := heq
      rw [heq2] at htot ⊢
      exact stackOne_percent_last scaleToExtent arr t htot hne
  · intro htot
    exact computeY_percent_zero m scaleToExtent x sv hout htot

/-- C2 (witness): instantiation at the map `{1 ↦ [10, 5]}`. -/
theorem percent_normalization_witness :
    (stackOne false [some (JsNum.num 10), some (JsNum.num 5)]).percent.getLast? =
      some (JsNum.num 1) := by
  have h := percent_normalization
    [(JsVal.num 1, [some (JsNum.num 10), some (JsNum.num 5)])] false (JsVal.num 1)
    (stackOne false [some (JsNum.num 10), some (JsNum.num 5)])
    (by norm_num [computeYStackedMapValues, computeYLoop, jsMapSet, jsMapGet])
  exact h.1 15 (by norm_num [stackOne, stackReduceGo, jsAddN, jsToNumber, jsAdd]) (by norm_num)

/-- C5 (counterexample): the claim `total = sum of contributions with null
as 0` fails on the singleton stack array `[null]`: the reduce seeds the
total with the raw value, so the recorded total is `null`, not the sum
`0`. -/
theorem stack_total_null_cex :
    jsMapGet (computeYStackedMapValues [(JsVal.num 1, [(none : Option JsNum)])] false)
        (JsVal.num 1) =
      some { values := [some (JsNum.num 0), none], percent := [JsNum.nan, JsNum.nan],
             total := none } ∧
    jsSumArr [(none : Option JsNum)] = JsNum.num 0 := by
  constructor
  · norm_num [computeYStackedMapValues, computeYLoop, jsMapSet, jsMapGet, stackOne,
      stackReduceGo, jsAddN, jsToNumber, jsAdd, jsDiv]
    intro h
    exact absurd h (by simp)
  · norm_num [jsSumArr, jsAdd, jsToNumber]

/-- C5 (amended): for every x value of the stacked map, the recorded total
is the JavaScript sum of the stack array (a null contribution coerced to
`0` by each addition) — except for the singleton array `[null]`, where the
total is `null` itself. -/
theorem stack_total_eq_js_sum (m : JsMap JsVal (List (Option JsNum))) (scaleToExtent : Bool)
    (x : JsVal) (arr : List (Option JsNum)) (sv : StackedValues)
    (hnd : (m.map Prod.fst).Nodup)
    (hget : jsMapGet m x = some arr)
    (hout : jsMapGet (computeYStackedMapValues m scaleToExtent) x = some sv) :
    sv.total = if arr = [none] then none else some (jsSumArr arr) := by
  rw [computeYStackedMapValues_get m x hnd, hget] at hout
  have hsv : sv = stackOne scaleToExtent arr := by simpa using hout.symm
  rw [hsv]
  exact stackOne_total scaleToExtent arr

/-- C5 (witness): instantiation at the map `{1 ↦ [10, null]}` (the null
contribution counts as 0 in the stack total). -/
theorem stack_total_eq_js_sum_witness :
    (stackOne false [some (JsNum.num 10), none]).total =
      if [some (JsNum.num 10), (none : Option JsNum)] = [none] then none
      else some (jsSumArr [some (JsNum.num 10), none]) :=
  stack_total_eq_js_sum [(JsVal.num 1, [some (JsNum.num 10), none])] false (JsVal.num 1)
    [some (JsNum.num 10), none] (stackOne false [some (JsNum.num 10), none])
    (by simp) (by simp [jsMapGet])
    (by norm_num [computeYStackedMapValues, computeYLoop, jsMapSet, jsMapGet])

/-- C6 (confirmed): a numeric per-x stack array `[v0, v1, ...]` produces
the cumulative values `[0, v0, v0+v1, ...]` in absolute mode and
`[v0, v0, v0+v1, ...]` in extent-scaled mode. -/
theorem stack_values_cumulative (m : JsMap JsVal (List (Option JsNum))) (scaleToExtent : Bool)
    (x : JsVal) (q0 : ℚ) (qs : List ℚ) (sv : StackedValues)
    (hnd : (m.map Prod.fst).Nodup)
    (hget : jsMapGet m x = some ((q0 :: qs).map (fun q => some (JsNum.num q))))
    (hout : jsMapGet (computeYStackedMapValues m scaleToExtent) x = some sv) :
    sv.values = (if scaleToExtent then some (JsNum.num q0) else some (JsNum.num 0)) ::
      (List.scanl (· + ·) q0 qs).map (fun q => some (JsNum.num q)) := by
  rw [computeYStackedMapValues_get m x hnd, hget] at hout
  have hsv : sv = stackOne scaleToExtent ((q0 :: qs).map (fun q => some (JsNum.num q))) := by
    simpa using hout.symm
  rw [hsv, stackOne_values_num, cumsumFrom_eq_scanl]

/-- C6 (witness): instantiation at the map `{1 ↦ [10, 5]}` in absolute
mode: values `[0, 10, 15]`. -/
theorem stack_values_cumulative_witness :
    (stackOne false [some (JsNum.num 10), some (JsNum.num 5)]).values =
      (if false then some (JsNum.num 10) else some (JsNum.num 0)) ::
        (List.scanl (· + ·) (10 : ℚ) [5]).map (fun q => some (JsNum.num q)) :=
  stack_values_cumulative [(JsVal.num 1, [some (JsNum.num 10), some (JsNum.num 5)])] false
    (JsVal.num 1) 10 [5] (stackOne false [some (JsNum.num 10), some (JsNum.num 5)])
    (by simp) (by simp [jsMapGet])
    (by norm_num [computeYStackedMapValues, computeYLoop, jsMapSet, jsMapGet])

/-- C7 (confirmed): in percentage mode with a zero stack total, the
guarded divisions produce the literal `0` (never `NaN`, and no error is
modelled): the formatted datum's percentage-converted `y1`/`y0`
(observable as `initialY1`/`initialY0`) are `0` whenever the raw values are
non-null, and every percent entry of the stacked map is `0`. -/
theorem percentage_zero_total_yields_zero :
    (∀ (data : RawDataSeriesDatum) (sv : JsMap JsVal StackedValues) (i : ℕ) (e : Bool)
        (filled : Option FilledValues) (stack : StackedValues) (out : DataSeriesDatum),
        jsMapGet sv data.x = some stack → stack.total = some (JsNum.num 0) →
        getStackedFormattedSeriesDatum data sv i e true filled = some out →
        (data.y1.isSome → out.initialY1 = some (JsNum.num 0)) ∧
        (data.y0.isSome → out.initialY0 = some (JsNum.num 0))) ∧
    (∀ (m : JsMap JsVal (List (Option JsNum))) (e : Bool) (x : JsVal) (sv : StackedValues),
        jsMapGet (computeYStackedMapValues m e) x = some sv →
        sv.total = some (JsNum.num 0) →
        ∀ p ∈ sv.percent, p = JsNum.num 0) := by
  constructor
  · intro data sv i e filled stack out hget htot hout
    simp only [getStackedFormattedSeriesDatum, hget, htot] at hout
    constructor
    · intro hy1
      obtain ⟨v, hv⟩ := Option.isSome_iff_exists.mp hy1
      rw [hv] at hout
      simp only [if_true, ite_true, ne_eq, not_true_eq_false, if_false, ite_false] at hout
      by_cases hi : i = 0
      · simp only [hi, if_pos rfl] at hout
        rw [← Option.some.inj hout]
      · simp only [if_neg hi] at hout
        rw [← Option.some.inj hout]
    · intro hy0
      obtain ⟨v, hv⟩ := Option.isSome_iff_exists.mp hy0
      rw [hv] at hout
      simp only [if_true, ite_true, ne_eq, not_true_eq_false, if_false, ite_false] at hout
      by_cases hi : i = 0
      · simp only [hi, if_pos rfl] at hout
        rw [← Option.some.inj hout]
        cases data.y1 <;> simp
      · simp only [if_neg hi] at hout
        rw [← Option.some.inj hout]
        cases data.y1 <;> simp
  · intro m e x sv hout htot
    exact computeY_percent_zero m e x sv hout htot

/-- C7 (witness): a datum with `y1 = 5`, `y0 = 3` at a zero-total x
(stack array `[5, -5]`), in percentage mode. -/
theorem percentage_zero_total_yields_zero_witness :
    ({ x := JsVal.num 1, y1 := some (JsNum.num 0), y0 := none,
       initialY1 := some (JsNum.num 0), initialY0 := some (JsNum.num 0), mark := none,
       datum := none, filled := none } : DataSeriesDatum).initialY1 = some (JsNum.num 0) ∧
    (stackOne false [some (JsNum.num 5), some (JsNum.num (-5))]).percent.getD 0 JsNum.nan =
      JsNum.num 0 := by
  constructor
  · exact (percentage_zero_total_yields_zero.1
      ⟨JsVal.num 1, some (JsNum.num 5), some (JsNum.num 3), none, none⟩
      (computeYStackedMapValues [(JsVal.num 1, [some (JsNum.num 5), some (JsNum.num (-5))])] false)
      0 false none (stackOne false [some (JsNum.num 5), some (JsNum.num (-5))])
      { x := JsVal.num 1, y1 := some (JsNum.num 0), y0 := none,
        initialY1 := some (JsNum.num 0), initialY0 := some (JsNum.num 0), mark := none,
        datum := none, filled := none }
      (by norm_num [computeYStackedMapValues, computeYLoop, jsMapSet, jsMapGet])
      (by norm_num [stackOne, stackReduceGo, jsAddN, jsToNumber, jsAdd])
      (by
        norm_num [getStackedFormattedSeriesDatum, computeYStackedMapValues, computeYLoop,
          jsMapSet, jsMapGet, stackOne, stackReduceGo, jsAddN, jsToNumber, jsAdd, jsDiv,
          jsOrN, jsNumFalsy, isDefined]
        intro h
        exact absurd h (by simp))).1 rfl
  · exact percentage_zero_total_yields_zero.2
      [(JsVal.num 1, [some (JsNum.num 5), some (JsNum.num (-5))])] false (JsVal.num 1)
      (stackOne false [some (JsNum.num 5), some (JsNum.num (-5))])
      (by norm_num [computeYStackedMapValues, computeYLoop, jsMapSet, jsMapGet])
      (by norm_num [stackOne, stackReduceGo, jsAddN, jsToNumber, jsAdd])
      ((stackOne false [some (JsNum.num 5), some (JsNum.num (-5))]).percent.getD 0 JsNum.nan)
      (by norm_num [stackOne, stackReduceGo, jsAddN, jsToNumber, jsAdd, jsDiv])

/- ---------------- claims about getStackedFormattedSeriesDatum ---------------- -/

/-- A zero numerator makes the JavaScript division falsy (`0` or `NaN`)
whatever the divisor. -/
theorem jsDiv_zero_falsy (x : JsNum) : jsNumFalsy (some (jsDiv (JsNum.num 0) x)) = true := by
  cases x with
  | num b =>
    by_cases hb : b = 0
    · simp [jsDiv, hb, jsNumFalsy]
    · simp [jsDiv, hb, jsNumFalsy]
  | nan => rfl
  | inf => rfl
  | ninf => rfl

/-- C1 (counterexample): in percentage mode, for a subsequent series index
a null `y1` does *not* force a null `y0`: with stack array `[10, null]`
(total 10, percent `[0, 1, 1]`) the datum `{x: 1, y1: null}` at series
index 1 is formatted with `y0 = percent[1] = 1`, not null. -/
theorem stackedDatum_nullY1_y0_not_null_cex :
    getStackedFormattedSeriesDatum ⟨JsVal.num 1, none, none, none, none⟩
        (computeYStackedMapValues [(JsVal.num 1, [some (JsNum.num 10), none])] false)
        1 false true none =
      some { x := JsVal.num 1, y1 := none, y0 := some (JsNum.num 1), initialY1 := none,
             initialY0 := none, mark := none, datum := none, filled := none } ∧
    (some (JsNum.num 1) : Option JsNum) ≠ none := by
  constructor
  · norm_num [getStackedFormattedSeriesDatum, computeYStackedMapValues, computeYLoop,
      jsMapSet, jsMapGet, stackOne, stackReduceGo, jsAddN, jsToNumber, jsAdd, jsDiv,
      jsOrN, jsNumFalsy, isDefined]
  · simp

/-- C1 (amended): a null raw `y1` forces a null output `y0` in the
non-percentage branch for every subsequent series index; for the first
series (any mode) it does so provided the raw `y0` is also null. In
percentage mode at index > 0 the output `y0` is the cumulative percent
value instead (see the counterexample). -/
theorem stackedDatum_nullY1_forces_nullY0 (data : RawDataSeriesDatum)
    (sv : JsMap JsVal StackedValues) (i : ℕ) (e pm : Bool)
    (filled : Option FilledValues) (out : DataSeriesDatum)
    (hout : getStackedFormattedSeriesDatum data sv i e pm filled = some out)
    (hy1 : data.y1 = none)
    (hcase : (i = 0 ∧ data.y0 = none) ∨ (i ≠ 0 ∧ pm = false)) :
    out.y0 = none := by
  cases hget : jsMapGet sv data.x with
  | none => simp [getStackedFormattedSeriesDatum, hget] at hout
  | some stack =>
    simp only [getStackedFormattedSeriesDatum, hget, hy1] at hout
    rcases hcase with ⟨hi, hy0⟩ | ⟨hi, hpm⟩
    · subst hi
      rw [hy0] at hout
      cases pm <;> cases e <;>
        simp only [if_true, if_false, ite_true, ite_false, if_pos rfl, jsOrN,
          jsNumFalsy] at hout <;>
        rw [← Option.some.inj hout] <;> try rfl
    · subst hpm
      simp only [if_neg hi, if_false, ite_false, Bool.false_eq_true] at hout
      cases hsy : (stack.values.get? i).join <;>
        simp only [hsy, Option.isSome_none, if_false, ite_false, Bool.false_eq_true,
          if_pos rfl, ite_true] at hout <;>
        rw [← Option.some.inj hout] <;> try rfl

/-- C1 (witness): a null `y1` at series index 1 in absolute (non-percentage)
mode yields a null `y0`. -/
theorem stackedDatum_nullY1_forces_nullY0_witness :
    ({ x := JsVal.num 1, y1 := none, y0 := none, initialY1 := none, initialY0 := none,
       mark := none, datum := none, filled := none } : DataSeriesDatum).y0 = none :=
  stackedDatum_nullY1_forces_nullY0 ⟨JsVal.num 1, none, none, none, none⟩
    (computeYStackedMapValues [(JsVal.num 1, [some (JsNum.num 10), none])] false)
    1 false false none
    { x := JsVal.num 1, y1 := none, y0 := none, initialY1 := none, initialY0 := none,
      mark := none, datum := none, filled := none }
    (by norm_num [getStackedFormattedSeriesDatum, computeYStackedMapValues, computeYLoop,
      jsMapSet, jsMapGet, stackOne, stackReduceGo, jsAddN, jsToNumber, jsAdd, jsDiv,
      jsOrN, jsNumFalsy, isDefined])
    rfl (Or.inr ⟨by norm_num, rfl⟩)

/-- C9 (counterexample): for a *subsequent* series index the emitted `y0`
is the stacked value, not `y0 || y1`: in extent mode with stack values
`[10, 10, 15]`, the datum `{x: 1, y1: 5, y0: 0}` at series index 1 is
emitted with `y0 = 10` (the stack below), not with its own `y1 = 5`. -/
theorem extent_zero_y0_not_y1_cex :
    getStackedFormattedSeriesDatum ⟨JsVal.num 1, some (JsNum.num 5), some (JsNum.num 0),
        none, none⟩
      (computeYStackedMapValues [(JsVal.num 1, [some (JsNum.num 10), some (JsNum.num 5)])] true)
      1 true false none =
      some { x := JsVal.num 1, y1 := some (JsNum.num 15), y0 := some (JsNum.num 10),
             initialY1 := some (JsNum.num 5), initialY0 := some (JsNum.num 0), mark := none,
             datum := none, filled := none } ∧
    (some (JsNum.num 10) : Option JsNum) ≠ some (JsNum.num 5) := by
  constructor
  · norm_num [getStackedFormattedSeriesDatum, computeYStackedMapValues, computeYLoop,
      jsMapSet, jsMapGet, stackOne, stackReduceGo, jsAddN, jsToNumber, jsAdd, jsDiv,
      jsOrN, jsNumFalsy, isDefined]
    exact ⟨fun h => absurd h (by simp), fun h => absurd h (by simp)⟩
  · norm_num

/-- C9 (amended): for the *first* series (index 0), where `computedY0` is
the emitted `y0`, an exactly-zero raw `y0` is treated as missing by the
`y0 || y1` fallback in extent mode: the emitted `y0` equals the
(percentage-converted) `y1`, i.e. the emitted `initialY1`. -/
theorem extent_zero_y0_uses_y1_first_series (data : RawDataSeriesDatum)
    (sv : JsMap JsVal StackedValues) (pm : Bool) (filled : Option FilledValues)
    (out : DataSeriesDatum)
    (hout : getStackedFormattedSeriesDatum data sv 0 true pm filled = some out)
    (hy0 : data.y0 = some (JsNum.num 0)) :
    out.y0 = out.initialY1 := by
  cases hget : jsMapGet sv data.x with
  | none => simp [getStackedFormattedSeriesDatum, hget] at hout
  | some stack =>
    simp only [getStackedFormattedSeriesDatum, hget, hy0] at hout
    cases pm with
    | false =>
      simp only [if_false, ite_false, Bool.false_eq_true, if_pos rfl, jsOrN, jsNumFalsy] at hout
      rw [← Option.some.inj hout]
      rfl
    | true =>
      simp only [if_true, ite_true, if_pos rfl, jsOrN] at hout
      by_cases hc : stack.total = some (JsNum.num 0)
      · simp only [hc, ne_eq, not_true_eq_false, if_false, ite_false, jsNumFalsy] at hout
        rw [← Option.some.inj hout]
        rfl
      · simp only [ne_eq, hc, not_false_eq_true, if_true, ite_true, jsDiv_zero_falsy] at hout
        rw [← Option.some.inj hout]

/-- C9 (witness): at series index 0 in extent mode, a datum with `y0 = 0`
and `y1 = 5` is emitted with `y0 = 5`. -/
theorem extent_zero_y0_uses_y1_first_series_witness :
    ({ x := JsVal.num 1, y1 := some (JsNum.num 5), y0 := some (JsNum.num 5),
       initialY1 := some (JsNum.num 5), initialY0 := some (JsNum.num 0), mark := none,
       datum := none, filled := none } : DataSeriesDatum).y0 =
    ({ x := JsVal.num 1, y1 := some (JsNum.num 5), y0 := some (JsNum.num 5),
       initialY1 := some (JsNum.num 5), initialY0 := some (JsNum.num 0), mark := none,
       datum := none, filled := none } : DataSeriesDatum).initialY1 :=
  extent_zero_y0_uses_y1_first_series
    ⟨JsVal.num 1, some (JsNum.num 5), some (JsNum.num 0), none, none⟩
    (computeYStackedMapValues [(JsVal.num 1, [some (JsNum.num 10), some (JsNum.num 5)])] true)
    false none
    { x := JsVal.num 1, y1 := some (JsNum.num 5), y0 := some (JsNum.num 5),
      initialY1 := some (JsNum.num 5), initialY0 := some (JsNum.num 0), mark := none,
      datum := none, filled := none }
    (by
      norm_num [getStackedFormattedSeriesDatum, computeYStackedMapValues, computeYLoop,
        jsMapSet, jsMapGet, stackOne, stackReduceGo, jsAddN, jsToNumber, jsAdd, jsDiv,
        jsOrN, jsNumFalsy, isDefined]
      intro h
      exact absurd h (by simp))
    rfl

/- ---------------- claims about getSeriesKey ---------------- -/

theorem pairwise_strict_of_sorted_nodup {α β : Type} [LinearOrder β] (g : α → β) :
    ∀ (l : List α), l.Pairwise (fun a b => g a ≤ g b) → (l.map g).Nodup →
      l.Pairwise (fun a b => g a < g b)
  | [], _, _ => List.Pairwise.nil
  | a :: l, hs, hn => by
      rw [List.pairwise_cons] at hs ⊢
      rw [List.map_cons, List.nodup_cons] at hn
      refine ⟨fun b hb => lt_of_le_of_ne (hs.1 b hb) ?_,
        pairwise_strict_of_sorted_nodup g l hs.2 hn.2⟩
      intro heq
      exact hn.1 (heq ▸ List.mem_map_of_mem g hb)

/-- If the JavaScript comparator coincides with a linear order (through a
key function with duplicate-free keys) on the elements of a list, the
modelled `sort` is invariant under permutations of its input. -/
theorem jsSort_eq_of_perm {α β : Type} [LinearOrder β] (cmp : α → α → Int) (g : α → β)
    (l₁ l₂ : List α) (hperm : l₁.Perm l₂)
    (hagree : ∀ a ∈ l₁, ∀ b ∈ l₁, (cmp a b ≤ 0 ↔ g a ≤ g b))
    (hnd : (l₁.map g).Nodup) :
    jsSort cmp l₁ = jsSort cmp l₂ := by
  have hagree2 : ∀ a ∈ l₂, ∀ b ∈ l₂, (cmp a b ≤ 0 ↔ g a ≤ g b) := fun a ha b hb =>
    hagree a (hperm.mem_iff.mpr ha) b (hperm.mem_iff.mpr hb)
  have hnd2 : (l₂.map g).Nodup := ((hperm.map g).nodup_iff).mp hnd
  have switch : ∀ (l : List α), (∀ a ∈ l, ∀ b ∈ l, (cmp a b ≤ 0 ↔ g a ≤ g b)) →
      l.insertionSort (fun a b => cmp a b ≤ 0) = l.insertionSort (fun a b => g a ≤ g b) := by
    intro l hl
    have h := List.map_insertionSort (r := fun a b => cmp a b ≤ 0)
      (s := fun a b : α => g a ≤ g b) id l (by simpa using hl)
    simpa using h
  haveI htotal : IsTotal α (fun a b => g a ≤ g b) := ⟨fun a b => le_total (g a) (g b)⟩
  haveI htrans : IsTrans α (fun a b => g a ≤ g b) := ⟨fun _ _ _ hab hbc => le_trans hab hbc⟩
  haveI hanti : IsAntisymm α (fun a b => g a < g b) :=
    ⟨fun _ _ h1 h2 => absurd (h1.trans h2) (lt_irrefl _)⟩
  have hs1 : (l₁.insertionSort (fun a b => g a ≤ g b)).Sorted (fun a b => g a ≤ g b) :=
    List.sorted_insertionSort _ l₁
  have hs2 : (l₂.insertionSort (fun a b => g a ≤ g b)).Sorted (fun a b => g a ≤ g b) :=
    List.sorted_insertionSort _ l₂
  have hnds1 : ((l₁.insertionSort (fun a b => g a ≤ g b)).map g).Nodup :=
    (((List.perm_insertionSort _ l₁).map g).nodup_iff).mpr hnd
  have hnds2 : ((l₂.insertionSort (fun a b => g a ≤ g b)).map g).Nodup :=
    (((List.perm_insertionSort _ l₂).map g).nodup_iff).mpr hnd2
  have hstrict1 := pairwise_strict_of_sorted_nodup g _ hs1 hnds1
  have hstrict2 := pairwise_strict_of_sorted_nodup g _ hs2 hnds2
  have hpchain : (l₁.insertionSort (fun a b => g a ≤ g b)).Perm
      (l₂.insertionSort (fun a b => g a ≤ g b)) :=
    ((List.perm_insertionSort _ l₁).trans hperm).trans (List.perm_insertionSort _ l₂).symm
  rw [jsSort, jsSort, switch l₁ hagree, switch l₂ hagree2]
  exact List.eq_of_perm_of_sorted hpchain hstrict1 hstrict2

/-- C3 (counterexample): key stability fails when accessor identifiers mix
strings and numbers: `5 > 'a'` and `'a' > 5` are both false in JavaScript
(NaN coercion), so the sort comparator is inconsistent and the two
insertion orders of the same entries produce different series keys. -/
theorem getSeriesKey_mixed_accessors_cex :
    ([(JsVal.num 5, JsVal.str ("x")), (JsVal.str ("a"), JsVal.str ("y"))] :
        JsMap JsVal JsVal).Perm
      [(JsVal.str ("a"), JsVal.str ("y")), (JsVal.num 5, JsVal.str ("x"))] ∧
    getSeriesKey ("s") (JsVal.str ("y1"))
        [(JsVal.num 5, JsVal.str ("x")), (JsVal.str ("a"), JsVal.str ("y"))] ≠
      getSeriesKey ("s") (JsVal.str ("y1"))
        [(JsVal.str ("a"), JsVal.str ("y")), (JsVal.num 5, JsVal.str ("x"))] := by
  constructor
  · decide
  · decide

/-- C3 (amended): `getSeriesKey` is invariant under the insertion order of
the split-accessor entries provided the accessor identifiers are uniformly
typed — all strings or all numbers — so that the `a > b ? 1 : -1`
comparator is consistent; with mixed identifiers it is not (see the
counterexample). -/
theorem getSeriesKey_insertion_order_invariant (specId : String) (yAccessor : JsVal)
    (m₁ m₂ : JsMap JsVal JsVal) (hperm : m₁.Perm m₂)
    (hnd : (m₁.map Prod.fst).Nodup)
    (huniform : (∀ p ∈ m₁, p.1.isStr = true) ∨ (∀ p ∈ m₁, p.1.isStr = false)) :
    getSeriesKey specId yAccessor m₁ = getSeriesKey specId yAccessor m₂ := by
  have hsort : jsSort seriesKeyCmp m₁ = jsSort seriesKeyCmp m₂ := by
    rcases huniform with hstr | hnum
    · apply jsSort_eq_of_perm seriesKeyCmp
        (fun p : JsVal × JsVal => match p.1 with | JsVal.str s => s | JsVal.num _ => "")
        m₁ m₂ hperm
      · intro a ha b hb
        obtain ⟨sa, hsa⟩ : ∃ s, a.1 = JsVal.str s := by
          cases hk : a.1 with
          | str s => exact ⟨s, rfl⟩
          | num q => exact absurd (hstr a ha) (by simp [hk, JsVal.isStr])
        obtain ⟨sb, hsb⟩ : ∃ s, b.1 = JsVal.str s := by
          cases hk : b.1 with
          | str s => exact ⟨s, rfl⟩
          | num q => exact absurd (hstr b hb) (by simp [hk, JsVal.isStr])
        rw [seriesKeyCmp, hsa, hsb]
        simp only [jsGTVal]
        by_cases h : sb < sa
        · simp [h, not_le.mpr h]
        · simp [h, le_of_not_lt h]
      · have hmg : m₁.map (fun p : JsVal × JsVal =>
            match p.1 with | JsVal.str s => s | JsVal.num _ => "") =
            (m₁.map Prod.fst).map (fun v => match v with
              | JsVal.str s => s | JsVal.num _ => "") := by
          rw [List.map_map]
          rfl
        rw [hmg]
        apply List.Nodup.map_on ?_ hnd
        intro x hx y hy hxy
        obtain ⟨px, hpx, hpx2⟩ := List.mem_map.mp hx
        obtain ⟨py, hpy, hpy2⟩ := List.mem_map.mp hy
        have hxs : x.isStr = true := hpx2 ▸ hstr px hpx
        have hys : y.isStr = true := hpy2 ▸ hstr py hpy
        cases x with
        | num q => simp [JsVal.isStr] at hxs
        | str sx =>
          cases y with
          | num q => simp [JsVal.isStr] at hys
          | str sy => simpa using hxy
    · apply jsSort_eq_of_perm seriesKeyCmp
        (fun p : JsVal × JsVal => match p.1 with | JsVal.str _ => (0 : ℚ) | JsVal.num q => q)
        m₁ m₂ hperm
      · intro a ha b hb
        obtain ⟨qa, hqa⟩ : ∃ q, a.1 = JsVal.num q := by
          cases hk : a.1 with
          | num q => exact ⟨q, rfl⟩
          | str s => exact absurd (hnum a ha) (by simp [hk, JsVal.isStr])
        obtain ⟨qb, hqb⟩ : ∃ q, b.1 = JsVal.num q := by
          cases hk : b.1 with
          | num q => exact ⟨q, rfl⟩
          | str s => exact absurd (hnum b hb) (by simp [hk, JsVal.isStr])
        rw [seriesKeyCmp, hqa, hqb]
        simp only [jsGTVal]
        by_cases h : qb < qa
        · simp [h, not_le.mpr h]
        · simp [h, le_of_not_lt h]
      · have hmg : m₁.map (fun p : JsVal × JsVal =>
            match p.1 with | JsVal.str _ => (0 : ℚ) | JsVal.num q => q) =
            (m₁.map Prod.fst).map (fun v => match v with
              | JsVal.str _ => (0 : ℚ) | JsVal.num q => q) := by
          rw [List.map_map]
          rfl
        rw [hmg]
        apply List.Nodup.map_on ?_ hnd
        intro x hx y hy hxy
        obtain ⟨px, hpx, hpx2⟩ := List.mem_map.mp hx
        obtain ⟨py, hpy, hpy2⟩ := List.mem_map.mp hy
        have hxs : x.isStr = false := hpx2 ▸ hnum px hpx
        have hys : y.isStr = false := hpy2 ▸ hnum py hpy
        cases x with
        | str s => simp [JsVal.isStr] at hxs
        | num qx =>
          cases y with
          | str s => simp [JsVal.isStr] at hys
          | num qy => simpa using hxy
  rw [getSeriesKey, getSeriesKey, hsort]

/-- C3 (witness): two insertion orders of the same all-string
split-accessor entries produce the same series key. -/
theorem getSeriesKey_insertion_order_invariant_witness :
    getSeriesKey ("s") (JsVal.str ("y1"))
        [(JsVal.str ("b"), JsVal.str ("y")), (JsVal.str ("a"), JsVal.str ("x"))] =
      getSeriesKey ("s") (JsVal.str ("y1"))
        [(JsVal.str ("a"), JsVal.str ("x")), (JsVal.str ("b"), JsVal.str ("y"))] :=
  getSeriesKey_insertion_order_invariant ("s") (JsVal.str ("y1"))
    [(JsVal.str ("b"), JsVal.str ("y")), (JsVal.str ("a"), JsVal.str ("x"))]
    [(JsVal.str ("a"), JsVal.str ("x")), (JsVal.str ("b"), JsVal.str ("y"))]
    (by decide) (by decide) (Or.inl (by decide))

/- ---------------- claims about getSeriesColors ---------------- -/

theorem getSeriesColorsLoop_get_preserve (chartColors : ColorConfig)
    (customColors : JsMap String String) (overrides : ColorOverrides) :
    ∀ (l : List (String × SeriesCollectionValue)) (m : JsMap String (Option String)) (c : ℕ)
      (k : String), k ∉ l.map Prod.fst →
      jsMapGet (getSeriesColorsLoop chartColors customColors overrides l (m, c)) k =
        jsMapGet m k := by
  intro l
  induction l with
  | nil => intro m c k _; rfl
  | cons p rest ih =>
    intro m c k hk
    obtain ⟨key, v⟩ := p
    simp only [List.map_cons, List.mem_cons] at hk
    push_neg at hk
    rw [getSeriesColorsLoop, ih _ _ _ hk.2, jsMapGet_set_ne _ _ _ _ hk.1]

/-- The color stored for one key equals the specification-side resolution
at the current counter. -/
theorem seriesColor_step_eq_resolve (key : String) (c : ℕ) (chartColors : ColorConfig)
    (customColors : JsMap String String) (overrides : ColorOverrides) :
    (if jsStrTruthy (getHighestOverride key customColors overrides) then
        getHighestOverride key customColors overrides
      else chartColors.vizColors.get? (c % chartColors.vizColors.length)) =
      resolveColorSpec key c chartColors customColors overrides := by
  by_cases h1 : jsStrTruthy (jsMapGet overrides.temporary key)
  · simp [getHighestOverride, resolveColorSpec, h1]
  · by_cases h2 : jsStrTruthy (jsMapGet customColors key)
    · simp [getHighestOverride, resolveColorSpec, h1, h2]
    · by_cases h3 : jsStrTruthy (jsMapGet overrides.persisted key)
      · simp [getHighestOverride, resolveColorSpec, h1, h2, h3]
      · simp [getHighestOverride, resolveColorSpec, h1, h2, h3]

theorem getSeriesColorsLoop_get (chartColors : ColorConfig)
    (customColors : JsMap String String) (overrides : ColorOverrides) :
    ∀ (l : List (String × SeriesCollectionValue)) (m : JsMap String (Option String)) (c : ℕ)
      (i : ℕ) (hi : i < l.length), (l.map Prod.fst).Nodup →
      jsMapGet (getSeriesColorsLoop chartColors customColors overrides l (m, c))
          (l.get ⟨i, hi⟩).1 =
        some (resolveColorSpec (l.get ⟨i, hi⟩).1 (c + i) chartColors customColors overrides) := by
  intro l
  induction l with
  | nil => intro m c i hi; simp at hi
  | cons p rest ih =>
    intro m c i hi hnd
    obtain ⟨key, v⟩ := p
    simp only [List.map_cons, List.nodup_cons] at hnd
    cases i with
    | zero =>
      simp only [List.get, getSeriesColorsLoop]
      rw [getSeriesColorsLoop_get_preserve _ _ _ _ _ _ _ hnd.1, jsMapGet_set_self,
        seriesColor_step_eq_resolve]
      simp
    | succ j =>
      simp only [List.get, getSeriesColorsLoop]
      have hj : j < rest.length := by simpa using hi
      have h := ih (jsMapSet m key
        (if jsStrTruthy (getHighestOverride key customColors overrides) then
          getHighestOverride key customColors overrides
        else chartColors.vizColors.get? (c % chartColors.vizColors.length))) (c + 1) j hj hnd.2
      rw [show c + (j + 1) = c + 1 + j by omega]
      exact h

/-- C8 (counterexample): the claim assigns "the first defined color", but
the source skips *falsy* colors: a temporary override that is the defined
empty string is passed over in favor of the custom color map. -/
theorem getSeriesColors_empty_override_cex :
    getSeriesColors
        [(("k" : String), (⟨false, none, ⟨"s", "k", JsVal.str ("y"), [], []⟩⟩ : SeriesCollectionValue))]
        { vizColors := ["red"] } [(("k" : String), ("blue" : String))]
        { temporary := [(("k" : String), ("" : String))], persisted := [] } =
      [(("k" : String), some ("blue" : String))] ∧
    jsMapGet [(("k" : String), ("" : String))] ("k") = some ("" : String) ∧
    ("blue" : String) ≠ ("" : String) := by
  refine ⟨?_, ?_, ?_⟩ <;> decide

/-- C8 (amended): each series key receives the first *non-empty* (truthy)
color in the order temporary override, custom color map, persisted
override, and otherwise the palette color at `counter % paletteSize`,
where the counter equals the series' position in collection iteration
order regardless of whether an override applied. -/
theorem getSeriesColors_precedence_counter (seriesCollection : JsMap String SeriesCollectionValue)
    (chartColors : ColorConfig) (customColors : JsMap String String)
    (overrides : ColorOverrides) (i : ℕ) (hi : i < seriesCollection.length)
    (hnd : (seriesCollection.map Prod.fst).Nodup) :
    jsMapGet (getSeriesColors seriesCollection chartColors customColors overrides)
        (seriesCollection.get ⟨i, hi⟩).1 =
      some (resolveColorSpec (seriesCollection.get ⟨i, hi⟩).1 i chartColors customColors
        overrides) := by
  have h := getSeriesColorsLoop_get chartColors customColors overrides seriesCollection [] 0 i hi
    hnd
  simpa [getSeriesColors] using h

/-- C8 (witness): in a two-series collection where the first series has a
temporary override, the second still receives palette color index 1. -/
theorem getSeriesColors_precedence_counter_witness :
    jsMapGet (getSeriesColors
        [(("k" : String), (⟨false, none, ⟨"s", "k", JsVal.str ("y"), [], []⟩⟩ : SeriesCollectionValue)),
         (("k2" : String), (⟨false, none, ⟨"s", "k2", JsVal.str ("y"), [], []⟩⟩ : SeriesCollectionValue))]
        { vizColors := ["red", "green"] } []
        { temporary := [(("k" : String), ("purple" : String))], persisted := [] }) ("k2") =
      some (resolveColorSpec ("k2") 1 { vizColors := ["red", "green"] } []
        { temporary := [(("k" : String), ("purple" : String))], persisted := [] }) := by
  have h := getSeriesColors_precedence_counter
    [(("k" : String), (⟨false, none, ⟨"s", "k", JsVal.str ("y"), [], []⟩⟩ : SeriesCollectionValue)),
     (("k2" : String), (⟨false, none, ⟨"s", "k2", JsVal.str ("y"), [], []⟩⟩ : SeriesCollectionValue))]
    { vizColors := ["red", "green"] } []
    { temporary := [(("k" : String), ("purple" : String))], persisted := [] } 1 (by decide)
    (by decide)
  simpa using h

/- ---------------- claims about getSplittedSeries ---------------- -/

theorem foldl_collection_set_isSome_mono (f : RawDataSeries → SeriesCollectionValue) :
    ∀ (ls : List RawDataSeries) (c : JsMap String SeriesCollectionValue) (k : String),
      (jsMapGet c k).isSome = true →
      (jsMapGet (ls.foldl (fun c series => jsMapSet c series.key (f series)) c) k).isSome =
        true := by
  intro ls
  induction ls with
  | nil => intro c k h; exact h
  | cons s rest ih =>
    intro c k h
    exact ih _ _ (jsMapGet_set_isSome _ _ _ _ h)

theorem foldl_collection_set_all (f : RawDataSeries → SeriesCollectionValue) :
    ∀ (ls : List RawDataSeries) (c : JsMap String SeriesCollectionValue),
      ∀ series ∈ ls,
      (jsMapGet (ls.foldl (fun c series => jsMapSet c series.key (f series)) c)
        series.key).isSome = true := by
  intro ls
  induction ls with
  | nil => intro c series h; simp at h
  | cons s rest ih =>
    intro c series h
    rcases List.mem_cons.mp h with h | h
    · subst h
      exact foldl_collection_set_isSome_mono f rest _ _ (jsMapGet_set_isSome_self _ _ _)
    · exact ih _ series h

theorem splittedLoop_splitted_preserve (deselectedDataSeries : List SeriesIdentifier) :
    ∀ (l : List BasicSeriesSpec) (st : SplittedState) (k : String),
      k ∉ l.map (fun s => s.id) →
      jsMapGet (getSplittedSeriesLoop deselectedDataSeries l st).1 k = jsMapGet st.1 k := by
  intro l
  induction l with
  | nil => intro st k _; rfl
  | cons spec rest ih =>
    intro st k hk
    obtain ⟨sp, coll, xs, iso⟩ := st
    simp only [List.map_cons, List.mem_cons] at hk
    push_neg at hk
    rw [getSplittedSeriesLoop, ih _ _ hk.2]
    exact jsMapGet_set_ne _ _ _ _ hk.1

theorem splittedLoop_collection_isSome_mono (deselectedDataSeries : List SeriesIdentifier) :
    ∀ (l : List BasicSeriesSpec) (st : SplittedState) (k : String),
      (jsMapGet st.2.1 k).isSome = true →
      (jsMapGet (getSplittedSeriesLoop deselectedDataSeries l st).2.1 k).isSome = true := by
  intro l
  induction l with
  | nil => intro st k h; exact h
  | cons spec rest ih =>
    intro st k h
    obtain ⟨sp, coll, xs, iso⟩ := st
    rw [getSplittedSeriesLoop]
    apply ih
    exact foldl_collection_set_isSome_mono _ _ _ _ h

theorem splittedLoop_main (deselectedDataSeries : List SeriesIdentifier)
    (hlen : deselectedDataSeries.length > 0) :
    ∀ (l : List BasicSeriesSpec) (st : SplittedState),
      (l.map (fun s => s.id)).Nodup →
      (∀ spec ∈ l,
        jsMapGet (getSplittedSeriesLoop deselectedDataSeries l st).1 spec.id =
          some ((splitSeries spec).rawDataSeries.filter
            (fun s => !(deselectedDataSeries.any (fun d => d.key = s.key))))) ∧
      (∀ spec ∈ l, ∀ series ∈ (splitSeries spec).rawDataSeries,
        (jsMapGet (getSplittedSeriesLoop deselectedDataSeries l st).2.1
          series.key).isSome = true) := by
  intro l
  induction l with
  | nil =>
    intro st _
    exact ⟨fun spec h => absurd h (by simp), fun spec h => absurd h (by simp)⟩
  | cons spec rest ih =>
    intro st hnd
    obtain ⟨sp, coll, xs, iso⟩ := st
    simp only [List.map_cons, List.nodup_cons] at hnd
    have hlen2 : ¬ deselectedDataSeries.length = 0 := by omega
    constructor
    · intro spec2 hmem
      rcases List.mem_cons.mp hmem with h | h
      · subst h
        rw [getSplittedSeriesLoop]
        simp only [if_pos hlen]
        rw [splittedLoop_splitted_preserve _ _ _ _ hnd.1]
        exact jsMapGet_set_self _ _ _
      · exact (ih _ hnd.2).1 spec2 h
    · intro spec2 hmem series hser
      rcases List.mem_cons.mp hmem with h | h
      · subst h
        rw [getSplittedSeriesLoop]
        apply splittedLoop_collection_isSome_mono
        exact foldl_collection_set_all _ _ _ series hser
      · exact (ih _ hnd.2).2 spec2 h series hser

/-- C10 (confirmed): with a non-empty deselected list, `getSplittedSeries`
stores the *filtered* raw series (deselected keys removed) in the per-spec
`splittedSeries` map, yet builds `seriesCollection` from the unfiltered
split result, so every split series — deselected ones included — still has
an entry in `seriesCollection` (and hence still participates in naming and
palette rotation). -/
theorem getSplittedSeries_keeps_deselected_in_collection
    (seriesSpecs : List BasicSeriesSpec) (deselectedDataSeries : List SeriesIdentifier)
    (hne : deselectedDataSeries ≠ [])
    (hnd : (seriesSpecs.map (fun s => s.id)).Nodup) :
    (∀ spec ∈ seriesSpecs,
      jsMapGet (getSplittedSeries seriesSpecs deselectedDataSeries).splittedSeries spec.id =
        some ((splitSeries spec).rawDataSeries.filter
          (fun s => !(deselectedDataSeries.any (fun d => d.key = s.key))))) ∧
    (∀ spec ∈ seriesSpecs, ∀ series ∈ (splitSeries spec).rawDataSeries,
      (jsMapGet (getSplittedSeries seriesSpecs deselectedDataSeries).seriesCollection
        series.key).isSome = true) := by
  have hlen : deselectedDataSeries.length > 0 := by
    cases deselectedDataSeries with
    | nil => exact absurd rfl hne
    | cons d rest => simp
  have h := splittedLoop_main deselectedDataSeries hlen seriesSpecs ([], [], [], false) hnd
  exact h

/-- C10 (witness): one spec with two split series (`g = a` and `g = b`);
deselecting the `g-a` series removes it from the per-spec map but its key
is still present in the series collection. -/
theorem getSplittedSeries_keeps_deselected_in_collection_witness :
    jsMapGet (getSplittedSeries
        [(⟨"s1", [some [("x", DVal.num 1), ("g", DVal.str ("a")), ("y", DVal.num 2)],
            some [("x", DVal.num 1), ("g", DVal.str ("b")), ("y", DVal.num 3)]],
          XAccessor.path (JsVal.str ("x")), [JsVal.str ("y")], none, none,
          [JsVal.str ("g")], ScaleType.linear, none⟩ : BasicSeriesSpec)]
        [(⟨"s1", "spec\x7bs1\x7dyAccessor\x7by\x7dsplitAccessors\x7bg-a\x7d"⟩ :
          SeriesIdentifier)]).splittedSeries ("s1") =
      some ((splitSeries
        (⟨"s1", [some [("x", DVal.num 1), ("g", DVal.str ("a")), ("y", DVal.num 2)],
            some [("x", DVal.num 1), ("g", DVal.str ("b")), ("y", DVal.num 3)]],
          XAccessor.path (JsVal.str ("x")), [JsVal.str ("y")], none, none,
          [JsVal.str ("g")], ScaleType.linear, none⟩ : BasicSeriesSpec)).rawDataSeries.filter
        (fun s => !([(⟨"s1",
            "spec\x7bs1\x7dyAccessor\x7by\x7dsplitAccessors\x7bg-a\x7d"⟩ :
            SeriesIdentifier)].any (fun d => d.key = s.key)))) ∧
    (jsMapGet (getSplittedSeries
        [(⟨"s1", [some [("x", DVal.num 1), ("g", DVal.str ("a")), ("y", DVal.num 2)],
            some [("x", DVal.num 1), ("g", DVal.str ("b")), ("y", DVal.num 3)]],
          XAccessor.path (JsVal.str ("x")), [JsVal.str ("y")], none, none,
          [JsVal.str ("g")], ScaleType.linear, none⟩ : BasicSeriesSpec)]
        [(⟨"s1", "spec\x7bs1\x7dyAccessor\x7by\x7dsplitAccessors\x7bg-a\x7d"⟩ :
          SeriesIdentifier)]).seriesCollection
      ("spec\x7bs1\x7dyAccessor\x7by\x7dsplitAccessors\x7bg-a\x7d")).isSome = true := by
  have h := getSplittedSeries_keeps_deselected_in_collection
    [(⟨"s1", [some [("x", DVal.num 1), ("g", DVal.str ("a")), ("y", DVal.num 2)],
        some [("x", DVal.num 1), ("g", DVal.str ("b")), ("y", DVal.num 3)]],
      XAccessor.path (JsVal.str ("x")), [JsVal.str ("y")], none, none,
      [JsVal.str ("g")], ScaleType.linear, none⟩ : BasicSeriesSpec)]
    [(⟨"s1", "spec\x7bs1\x7dyAccessor\x7by\x7dsplitAccessors\x7bg-a\x7d"⟩ : SeriesIdentifier)]
    (List.cons_ne_nil _ _) (by simp)
  constructor
  · exact h.1 _ (List.mem_cons_self _ _)
  · refine h.2 _ (List.mem_cons_self _ _)
      (⟨⟨"s1", "spec\x7bs1\x7dyAccessor\x7by\x7dsplitAccessors\x7bg-a\x7d", JsVal.str ("y"),
        [(JsVal.str ("g"), JsVal.str ("a"))], [JsVal.str ("a"), JsVal.str ("y")]⟩,
        [⟨JsVal.num 1, some (JsNum.num 2), none, none,
          some [("x", DVal.num 1), ("g", DVal.str ("a")), ("y", DVal.num 2)]⟩]⟩ : RawDataSeries)
      (by decide)

/- ---------------- C4 lemmas ---------------- -/

theorem stackDatumLoop_isSome_mono (n index : ℕ) (xValues : List JsVal) :
    ∀ (data : List RawDataSeriesDatum) (st : JsMap JsVal (List (Option JsNum)) × List JsVal)
      (x : JsVal), (jsMapGet st.1 x).isSome = true →
      (jsMapGet (stackDatumLoop n index xValues data st).1 x).isSome = true := by
  intro data
  induction data with
  | nil => intro st x h; exact h
  | cons d rest ih =>
    intro st x h
    obtain ⟨sm, miss⟩ := st
    rw [stackDatumLoop]
    exact ih _ _ (jsMapGet_set_isSome _ _ _ _ h)

theorem stackMissingLoop_isSome_mono (n index : ℕ) :
    ∀ (miss : List JsVal) (sm : JsMap JsVal (List (Option JsNum))) (x : JsVal),
      (jsMapGet sm x).isSome = true →
      (jsMapGet (stackMissingLoop n index miss sm) x).isSome = true := by
  intro miss
  induction miss with
  | nil => intro sm x h; exact h
  | cons m rest ih =>
    intro sm x h
    rw [stackMissingLoop]
    exact ih _ _ (jsMapGet_set_isSome _ _ _ _ h)

theorem stackMissingLoop_covers (n index : ℕ) :
    ∀ (miss : List JsVal) (sm : JsMap JsVal (List (Option JsNum))) (x : JsVal), x ∈ miss →
      (jsMapGet (stackMissingLoop n index miss sm) x).isSome = true := by
  intro miss
  induction miss with
  | nil => intro sm x h; simp at h
  | cons m rest ih =>
    intro sm x h
    rcases List.mem_cons.mp h with h | h
    · subst h
      rw [stackMissingLoop]
      exact stackMissingLoop_isSome_mono _ _ _ _ _ (jsMapGet_set_isSome_self _ _ _)
    · rw [stackMissingLoop]
      exact ih _ _ h

theorem stackSeriesLoop_isSome_mono (n : ℕ) (xValues : List JsVal) :
    ∀ (l : List RawDataSeries) (index : ℕ)
      (st : JsMap JsVal (List (Option JsNum)) × List JsVal) (x : JsVal),
      (jsMapGet st.1 x).isSome = true →
      (jsMapGet (stackSeriesLoop n xValues index l st).1 x).isSome = true := by
  intro l
  induction l with
  | nil => intro index st x h; exact h
  | cons ds rest ih =>
    intro index st x h
    rw [stackSeriesLoop]
    exact ih _ _ _ (stackMissingLoop_isSome_mono _ _ _ _ _
      (stackDatumLoop_isSome_mono _ _ _ _ _ _ h))

theorem stackDatumLoop_invariant (n index : ℕ) (xValues : List JsVal) :
    ∀ (data : List RawDataSeriesDatum) (st : JsMap JsVal (List (Option JsNum)) × List JsVal)
      (x : JsVal), (x ∈ st.2 ∨ (jsMapGet st.1 x).isSome = true) →
      (x ∈ (stackDatumLoop n index xValues data st).2 ∨
        (jsMapGet (stackDatumLoop n index xValues data st).1 x).isSome = true) := by
  intro data
  induction data with
  | nil => intro st x h; exact h
  | cons d rest ih =>
    intro st x h
    obtain ⟨sm, miss⟩ := st
    rw [stackDatumLoop]
    apply ih
    rcases h with h | h
    · by_cases hx : x = d.x
      · subst hx
        exact Or.inr (jsMapGet_set_isSome_self _ _ _)
      · left
        by_cases hc : d.x ∈ xValues
        · simp only [hc, if_true, ite_true]
          exact List.mem_filter.mpr ⟨h, by simp [hx]⟩
        · simpa [hc] using h
    · exact Or.inr (jsMapGet_set_isSome _ _ _ _ h)

theorem getYValueStackMap_covers (dataseries : List RawDataSeries) (xValues : List JsVal)
    (hne : dataseries ≠ []) :
    ∀ x ∈ xValues, (jsMapGet (getYValueStackMap dataseries xValues) x).isSome = true := by
  intro x hx
  cases dataseries with
  | nil => exact absurd rfl hne
  | cons d rest =>
    rw [getYValueStackMap, stackSeriesLoop]
    apply stackSeriesLoop_isSome_mono
    rcases stackDatumLoop_invariant _ 0 xValues d.data ([], xValues) x (Or.inl hx) with h | h
    · exact stackMissingLoop_covers _ _ _ _ _ h
    · exact stackMissingLoop_isSome_mono _ _ _ _ _ h

theorem computeYLoop_isSome (scaleToExtent : Bool) :
    ∀ (l : List (JsVal × List (Option JsNum))) (acc : JsMap JsVal StackedValues) (x : JsVal),
      ((jsMapGet l x).isSome = true ∨ (jsMapGet acc x).isSome = true) →
      (jsMapGet (computeYLoop scaleToExtent l acc) x).isSome = true := by
  intro l
  induction l with
  | nil =>
    intro acc x h
    rcases h with h | h
    · simp [jsMapGet] at h
    · exact h
  | cons p rest ih =>
    intro acc x h
    obtain ⟨k, arr⟩ := p
    rw [computeYLoop]
    apply ih
    rcases h with h | h
    · by_cases hk : k = x
      · subst hk
        exact Or.inr (jsMapGet_set_isSome_self _ _ _)
      · left
        simpa [jsMapGet, hk] using h
    · exact Or.inr (jsMapGet_set_isSome _ _ _ _ h)

theorem getStacked_isSome_x (data : RawDataSeriesDatum) (sv : JsMap JsVal StackedValues)
    (i : ℕ) (e pm : Bool) (filled : Option FilledValues)
    (h : (jsMapGet sv data.x).isSome = true) :
    ∃ out, getStackedFormattedSeriesDatum data sv i e pm filled = some out ∧ out.x = data.x := by
  obtain ⟨stack, hget⟩ := Option.isSome_iff_exists.mp h
  cases hh : getStackedFormattedSeriesDatum data sv i e pm filled with
  | none =>
    exfalso
    by_cases hi : i = 0
    · subst hi
      simp only [getStackedFormattedSeriesDatum, hget, if_pos rfl] at hh
      exact Option.noConfusion hh
    · simp only [getStackedFormattedSeriesDatum, hget, if_neg hi] at hh
      exact Option.noConfusion hh
  | some out =>
    refine ⟨out, rfl, ?_⟩
    by_cases hi : i = 0
    · subst hi
      simp only [getStackedFormattedSeriesDatum, hget, if_pos rfl] at hh
      rw [← Option.some.inj hh]
    · simp only [getStackedFormattedSeriesDatum, hget, if_neg hi] at hh
      rw [← Option.some.inj hh]

theorem formatDatumLoop_map_x (sv : JsMap JsVal StackedValues) (i : ℕ) (e pm : Bool) :
    ∀ (data : List RawDataSeriesDatum) (nd : List DataSeriesDatum) (miss : List JsVal),
      (∀ d ∈ data, (jsMapGet sv d.x).isSome = true) →
      (formatDatumLoop sv i e pm data (nd, miss)).1.map (fun d => d.x) =
        nd.map (fun d => d.x) ++ data.map (fun d => d.x) := by
  intro data
  induction data with
  | nil => intro nd miss _; simp [formatDatumLoop]
  | cons d rest ih =>
    intro nd miss h
    obtain ⟨out, hout, hx⟩ := getStacked_isSome_x d sv i e pm none (h d (List.mem_cons_self d rest))
    rw [formatDatumLoop, hout, ih _ _ (fun d2 hd2 => h d2 (List.mem_cons_of_mem _ hd2))]
    simp [hx]

theorem formatDatumLoop_missing (sv : JsMap JsVal StackedValues) (i : ℕ) (e pm : Bool) :
    ∀ (data : List RawDataSeriesDatum) (nd : List DataSeriesDatum) (miss : List JsVal),
      (∀ d ∈ data, (jsMapGet sv d.x).isSome = true) →
      (formatDatumLoop sv i e pm data (nd, miss)).2 =
        miss.filter (fun k => decide (k ∉ data.map (fun d => d.x))) := by
  intro data
  induction data with
  | nil =>
    intro nd miss _
    rw [formatDatumLoop]
    symm
    rw [List.filter_eq_self]
    intro a _
    simp
  | cons d rest ih =>
    intro nd miss h
    obtain ⟨out, hout, hx⟩ := getStacked_isSome_x d sv i e pm none (h d (List.mem_cons_self d rest))
    rw [formatDatumLoop, hout, ih _ _ (fun d2 hd2 => h d2 (List.mem_cons_of_mem _ hd2)),
      List.filter_filter]
    apply List.filter_congr
    intro k _
    simp [List.mem_cons, not_or, Bool.and_comm]

theorem formatMissingLoop_map_x (sv : JsMap JsVal StackedValues) (i : ℕ) (e pm : Bool) :
    ∀ (miss : List JsVal) (nd : List DataSeriesDatum),
      (∀ x ∈ miss, (jsMapGet sv x).isSome = true) →
      (formatMissingLoop sv i e pm miss nd).map (fun d => d.x) =
        nd.map (fun d => d.x) ++ miss := by
  intro miss
  induction miss with
  | nil => intro nd _; simp [formatMissingLoop]
  | cons x rest ih =>
    intro nd h
    obtain ⟨out, hout, hx⟩ := getStacked_isSome_x
      { x := x, y1 := some (.num 0), mark := none, datum := none } sv i e pm
      (some { x := some x, y1 := some (.num 0) }) (h x (List.mem_cons_self x rest))
    rw [formatMissingLoop, hout, ih _ (fun x2 hx2 => h x2 (List.mem_cons_of_mem _ hx2))]
    simp [hx]

theorem formatted_series_data_perm (sv : JsMap JsVal StackedValues) (e pm : Bool)
    (xValues : List JsVal) (st : ScaleType) (i : ℕ) (ds : RawDataSeries)
    (hxv : xValues.Nodup)
    (hcover : ∀ x ∈ xValues, (jsMapGet sv x).isSome = true)
    (hdsx : (ds.data.map (fun d => d.x)).Nodup)
    (hsub : ∀ d ∈ ds.data, d.x ∈ xValues) :
    ((jsSort (datumXSortPredicate st)
      (formatMissingLoop sv i e pm (formatDatumLoop sv i e pm ds.data ([], xValues)).2
        (formatDatumLoop sv i e pm ds.data ([], xValues)).1)).map (fun d => d.x)).Perm
      xValues := by
  have hstacks : ∀ d ∈ ds.data, (jsMapGet sv d.x).isSome = true := fun d hd =>
    hcover d.x (hsub d hd)
  have h2 := formatDatumLoop_missing sv i e pm ds.data [] xValues hstacks
  have hmisscover : ∀ x ∈ (formatDatumLoop sv i e pm ds.data ([], xValues)).2,
      (jsMapGet sv x).isSome = true := by
    intro x hx
    rw [h2] at hx
    exact hcover x (List.mem_of_mem_filter hx)
  have h3 := formatMissingLoop_map_x sv i e pm
    (formatDatumLoop sv i e pm ds.data ([], xValues)).2
    (formatDatumLoop sv i e pm ds.data ([], xValues)).1 hmisscover
  have h1 := formatDatumLoop_map_x sv i e pm ds.data [] xValues hstacks
  have hperm0 : ((jsSort (datumXSortPredicate st)
      (formatMissingLoop sv i e pm (formatDatumLoop sv i e pm ds.data ([], xValues)).2
        (formatDatumLoop sv i e pm ds.data ([], xValues)).1)).map (fun d => d.x)).Perm
      ((formatMissingLoop sv i e pm (formatDatumLoop sv i e pm ds.data ([], xValues)).2
        (formatDatumLoop sv i e pm ds.data ([], xValues)).1).map (fun d => d.x)) :=
    (List.perm_insertionSort _ _).map _
  refine hperm0.trans ?_
  rw [h3, h1, h2]
  simp only [List.map_nil, List.nil_append]
  -- goal: (dsxs ++ xValues.filter (fun k => decide (k ∉ dsxs))).Perm xValues
  have hmemiff : ∀ a, a ∈ xValues.filter (fun k => decide (k ∈ ds.data.map (fun d => d.x))) ↔
      a ∈ ds.data.map (fun d => d.x) := by
    intro a
    constructor
    · intro h
      simpa using (List.mem_filter.mp h).2
    · intro h
      refine List.mem_filter.mpr ⟨?_, by simpa using h⟩
      obtain ⟨d, hd, hdx⟩ := List.mem_map.mp h
      exact hdx ▸ hsub d hd
  have hpfilter : (xValues.filter (fun k => decide (k ∈ ds.data.map (fun d => d.x)))).Perm
      (ds.data.map (fun d => d.x)) := by
    apply List.perm_of_nodup_nodup_toFinset_eq (hxv.filter _) hdsx
    ext a
    simp only [List.mem_toFinset]
    exact hmemiff a
  have happ := hpfilter.symm.append_right
    (xValues.filter (fun k => decide (k ∉ ds.data.map (fun d => d.x))))
  refine happ.trans ?_
  have hcongr : xValues.filter (fun k => decide (k ∉ ds.data.map (fun d => d.x))) =
      xValues.filter (fun k => !(decide (k ∈ ds.data.map (fun d => d.x)))) := by
    apply List.filter_congr
    intro k _
    simp only [decide_not]
  rw [hcongr]
  exact List.filter_append_perm _ _

theorem formatSeriesLoop_mem (sv : JsMap JsVal StackedValues) (e pm : Bool)
    (xValues : List JsVal) (st : ScaleType) :
    ∀ (l : List RawDataSeries) (i : ℕ) (out : DataSeries),
      out ∈ formatSeriesLoop sv e pm xValues st i l →
      ∃ ds ∈ l, ∃ j : ℕ, out.data = jsSort (datumXSortPredicate st)
        (formatMissingLoop sv j e pm (formatDatumLoop sv j e pm ds.data ([], xValues)).2
          (formatDatumLoop sv j e pm ds.data ([], xValues)).1) := by
  intro l
  induction l with
  | nil => intro i out h; simp [formatSeriesLoop] at h
  | cons ds rest ih =>
    intro i out h
    rw [formatSeriesLoop] at h
    rcases List.mem_cons.mp h with h | h
    · exact ⟨ds, List.mem_cons_self _ _, i, by rw [h]⟩
    · obtain ⟨ds2, hds2, j, hj⟩ := ih (i + 1) out h
      exact ⟨ds2, List.mem_cons_of_mem _ hds2, j, hj⟩

/-- C4 (confirmed): for a stacked group whose series have at most one
datum per x and whose x values all lie in the universe, every output
series has exactly one datum per x value of the universe: its data's x
values are a permutation of the universe. -/
theorem formatStacked_one_datum_per_x (dataseries : List RawDataSeries)
    (xValues : List JsVal) (scaleToExtent isPercentageMode : Bool) (xScaleType : ScaleType)
    (hxv : xValues.Nodup)
    (hds : ∀ ds ∈ dataseries,
      (ds.data.map (fun d => d.x)).Nodup ∧ ∀ d ∈ ds.data, d.x ∈ xValues) :
    ∀ out ∈ formatStackedDataSeriesValues dataseries scaleToExtent isPercentageMode xValues
        xScaleType,
      ((out.data.map (fun d => d.x)).Perm xValues) := by
  intro out hout
  have hne : dataseries ≠ [] := by
    rintro rfl
    simp [formatStackedDataSeriesValues, formatSeriesLoop] at hout
  have hcover : ∀ x ∈ xValues,
      (jsMapGet (computeYStackedMapValues (getYValueStackMap dataseries xValues)
        scaleToExtent) x).isSome = true := by
    intro x hx
    exact computeYLoop_isSome scaleToExtent _ [] x
      (Or.inl (getYValueStackMap_covers dataseries xValues hne x hx))
  obtain ⟨ds, hdsmem, j, hdata⟩ := formatSeriesLoop_mem _ _ _ _ _ dataseries 0 out hout
  rw [hdata]
  exact formatted_series_data_perm _ _ _ _ _ j ds hxv hcover (hds ds hdsmem).1
    (fun d hd => (hds ds hdsmem).2 d hd)

/-- C4 (witness): one series `{1 ↦ 10}` over the universe `{1, 2}`: the
output contains exactly one datum per universe x (the real 1 and the
gap-filled 2). -/
theorem formatStacked_one_datum_per_x_witness :
    ((((formatStackedDataSeriesValues
        [⟨⟨"s", "a", JsVal.str ("y"), [], []⟩,
          [⟨JsVal.num 1, some (JsNum.num 10), none, none, none⟩]⟩]
        false false [JsVal.num 1, JsVal.num 2] ScaleType.linear).headD
        ⟨⟨"", "", JsVal.str (""), [], []⟩, []⟩).data.map (fun d => d.x)).Perm
      [JsVal.num 1, JsVal.num 2]) := by
  have hlist : formatStackedDataSeriesValues
      [⟨⟨"s", "a", JsVal.str ("y"), [], []⟩,
        [⟨JsVal.num 1, some (JsNum.num 10), none, none, none⟩]⟩]
      false false [JsVal.num 1, JsVal.num 2] ScaleType.linear =
      [⟨⟨"s", "a", JsVal.str ("y"), [], []⟩,
        [⟨JsVal.num 1, some (JsNum.num 10), none, some (JsNum.num 10), none, none, none, none⟩,
         ⟨JsVal.num 2, some (JsNum.num 0), none, some (JsNum.num 0), none, none, none,
           some ⟨some (JsVal.num 2), some (JsNum.num 0), none⟩⟩]⟩] := by
    norm_num [formatStackedDataSeriesValues, formatSeriesLoop, formatDatumLoop,
      formatMissingLoop, getStackedFormattedSeriesDatum, getYValueStackMap, stackSeriesLoop,
      stackDatumLoop, stackMissingLoop, computeYStackedMapValues, computeYLoop, stackOne,
      stackReduceGo, jsMapSet, jsMapGet, jsSort, List.insertionSort, List.orderedInsert,
      datumXSortPredicate, JsVal.isStr, jsOrN, jsNumFalsy, jsAddN, jsToNumber, jsAdd, jsDiv,
      isDefined]
    decide
  have h := formatStacked_one_datum_per_x
    [⟨⟨"s", "a", JsVal.str ("y"), [], []⟩,
      [⟨JsVal.num 1, some (JsNum.num 10), none, none, none⟩]⟩]
    [JsVal.num 1, JsVal.num 2] false false ScaleType.linear (by decide) (by decide)
    ⟨⟨"s", "a", JsVal.str ("y"), [], []⟩,
      [⟨JsVal.num 1, some (JsNum.num 10), none, some (JsNum.num 10), none, none, none, none⟩,
       ⟨JsVal.num 2, some (JsNum.num 0), none, some (JsNum.num 0), none, none, none,
         some ⟨some (JsVal.num 2), some (JsNum.num 0), none⟩⟩]⟩
    (by rw [hlist]; exact List.mem_cons_self _ _)
  rw [hlist]
  exact h
